import Mathlib

/-! # nginx-ssl-ja3: the JA3 record builder and its serializer

A shallow embedding of `src/ngx_ssl_ja3.c`.  C `int` values are `Int`, `size_t`
counters are `Nat` (the counts come from one TLS ClientHello, far below any
machine limit), arrays are lists and a null pointer is `none`.  A load or
store the C code would perform through a null pointer or outside an input or
record array makes the embedded function return `none`.  The block the
serializer allocates for its output is kept as its size together with the log
of the byte stores made into it, each with its offset, so that the position
of every store can be compared with the size of the block.
-/

namespace NgxSslJa3

/-! ## GREASE table and predicate (lines 30-59) -/

/-- The table `GREASE[]`: sixteen `unsigned short` constants. -/
def GREASE : List Int :=
  [0x0a0a, 0x1a1a, 0x2a2a, 0x3a3a, 0x4a4a, 0x5a5a, 0x6a6a, 0x7a7a,
   0x8a8a, 0x9a9a, 0xaaaa, 0xbaba, 0xcaca, 0xdada, 0xeaea, 0xfafa]

/-- The `for` loop of `ngx_ssl_ja3_is_ext_greased` over the table entries that
are still ahead: return 1 at the first entry equal to `id`, 0 when the table
is exhausted. -/
def is_ext_greased_scan (id : Int) : List Int → Int
  | [] => 0
  | g :: rest => if id = g then 1 else is_ext_greased_scan id rest

/-- `ngx_ssl_ja3_is_ext_greased(int id)`. -/
def ngx_ssl_ja3_is_ext_greased (id : Int) : Int :=
  is_ext_greased_scan id GREASE

/-! ## Curve identifier table and mapper (lines 62-106) -/

/-- The twenty-nine OpenSSL identifiers named by `nid_list[]`.  Their numeric
values are defined by OpenSSL headers, not by this repository, so they are
kept symbolic. -/
structure NidTable where
  NID_sect163k1 : Int
  NID_sect163r1 : Int
  NID_sect163r2 : Int
  NID_sect193r1 : Int
  NID_sect193r2 : Int
  NID_sect233k1 : Int
  NID_sect233r1 : Int
  NID_sect239k1 : Int
  NID_sect283k1 : Int
  NID_sect283r1 : Int
  NID_sect409k1 : Int
  NID_sect409r1 : Int
  NID_sect571k1 : Int
  NID_sect571r1 : Int
  NID_secp160k1 : Int
  NID_secp160r1 : Int
  NID_secp160r2 : Int
  NID_secp192k1 : Int
  NID_X9_62_prime192v1 : Int
  NID_secp224k1 : Int
  NID_secp224r1 : Int
  NID_secp256k1 : Int
  NID_X9_62_prime256v1 : Int
  NID_secp384r1 : Int
  NID_secp521r1 : Int
  NID_brainpoolP256r1 : Int
  NID_brainpoolP384r1 : Int
  NID_brainpoolP512r1 : Int
  EVP_PKEY_X25519 : Int

/-- The table `nid_list[]`, in source order. -/
def nid_list (t : NidTable) : List Int :=
  [t.NID_sect163k1, t.NID_sect163r1, t.NID_sect163r2, t.NID_sect193r1,
   t.NID_sect193r2, t.NID_sect233k1, t.NID_sect233r1, t.NID_sect239k1,
   t.NID_sect283k1, t.NID_sect283r1, t.NID_sect409k1, t.NID_sect409r1,
   t.NID_sect571k1, t.NID_sect571r1, t.NID_secp160k1, t.NID_secp160r1,
   t.NID_secp160r2, t.NID_secp192k1, t.NID_X9_62_prime192v1, t.NID_secp224k1,
   t.NID_secp224r1, t.NID_secp256k1, t.NID_X9_62_prime256v1, t.NID_secp384r1,
   t.NID_secp521r1, t.NID_brainpoolP256r1, t.NID_brainpoolP384r1,
   t.NID_brainpoolP512r1, t.EVP_PKEY_X25519]

/-- The identifier values of OpenSSL 1.1 (`obj_mac.h`, `evp.h`), used where a
concrete table is needed. -/
def openssl_nids : NidTable where
  NID_sect163k1 := 721
  NID_sect163r1 := 722
  NID_sect163r2 := 723
  NID_sect193r1 := 724
  NID_sect193r2 := 725
  NID_sect233k1 := 726
  NID_sect233r1 := 727
  NID_sect239k1 := 728
  NID_sect283k1 := 729
  NID_sect283r1 := 730
  NID_sect409k1 := 731
  NID_sect409r1 := 732
  NID_sect571k1 := 733
  NID_sect571r1 := 734
  NID_secp160k1 := 708
  NID_secp160r1 := 709
  NID_secp160r2 := 710
  NID_secp192k1 := 711
  NID_X9_62_prime192v1 := 409
  NID_secp224k1 := 712
  NID_secp224r1 := 713
  NID_secp256k1 := 714
  NID_X9_62_prime256v1 := 415
  NID_secp384r1 := 715
  NID_secp521r1 := 716
  NID_brainpoolP256r1 := 927
  NID_brainpoolP384r1 := 931
  NID_brainpoolP512r1 := 933
  EVP_PKEY_X25519 := 1034

/-- The `for` loop of `ngx_ssl_ja3_nid_to_cid` with the `unsigned char`
counter at `i` and the table entries from position `i` on still ahead:
`return i+1` at the first entry equal to `nid`, `return 0` at the end. -/
def nid_to_cid_scan (nid : Int) : List Int → Nat → Nat
  | [], _ => 0
  | x :: rest, i =>
    if nid = x then (i + 1) % 256 else nid_to_cid_scan nid rest ((i + 1) % 256)

/-- `ngx_ssl_ja3_nid_to_cid(int nid)`; the result type is `unsigned char`. -/
def ngx_ssl_ja3_nid_to_cid (t : NidTable) (nid : Int) : Nat :=
  nid_to_cid_scan nid (nid_list t) 0

/-! ## Digit counter (lines 108-119) -/

/-- The loop `for (; n; n /= 10) ++c;` with C's truncating division.  The
first argument bounds the number of iterations. -/
def num_digits_loop : Nat → Int → Int → Int
  | 0, _, c => c
  | fuel + 1, n, c => if n = 0 then c else num_digits_loop fuel (n.tdiv 10) (c + 1)

/-- `ngx_ssj_ja3_num_digits(int n)`, result converted to `size_t`.  The loop is
entered only with `n ≥ 9` and then runs for fewer than `n` iterations
(`num_digits_loop_fuel`), so the bound `n.toNat` is never reached. -/
def ngx_ssj_ja3_num_digits (n : Int) : Nat :=
  if n < 9 then 1 else (num_digits_loop n.toNat n 0).toNat

/-! ## nginx services used by the serializer

`ngx_snprintf`, `ngx_pnalloc` and `ngx_memzero` belong to the nginx core, and
`ngx_ssl_ja3_t` is declared in `ngx_ssl_ja3.h`; none of them is in `src/`. -/

/-- Modelled from the spec: the text of the `%d` conversion of
`ngx_snprintf`, which is nginx core code and not in `src/`: the plain decimal
digits of an `int`, without leading zeros, after a minus sign when the value
is negative. -/
def ngx_fmt_d (v : Int) : List Char :=
  if v < 0 then '-' :: Nat.toDigits 10 v.natAbs else Nat.toDigits 10 v.toNat

/-- A block handed out by `ngx_pnalloc(pool, cap)`, observed through the byte
stores made relative to its start, oldest first.  A store at an offset
`≥ cap` lands outside the block. -/
structure Buf where
  cap : Nat
  stores : List (Nat × Char)
deriving DecidableEq, Repr

/-- Store the bytes of `s` at offsets `off`, `off+1`, ... -/
def Buf.write (b : Buf) (off : Nat) (s : List Char) : Buf :=
  { b with stores := b.stores ++ s.enumFrom off }

/-- The byte a load at offset `i` sees after the stores of a log: the most
recent store to `i`, `none` when `i` was never stored to. -/
def stores_read : List (Nat × Char) → Nat → Option Char
  | [], _ => none
  | (o, ch) :: rest, i =>
    match stores_read rest i with
    | some later => some later
    | none => if o = i then some ch else none

/-- The bytes a reader finds at the listed offsets, when each of them has been
stored to. -/
def read_all (rd : Nat → Option Char) : List Nat → Option (List Char)
  | [] => some []
  | i :: rest =>
    match rd i, read_all rd rest with
    | some c, some l => some (c :: l)
    | _, _ => none

/-- The bytes at offsets `0 .. n-1`, when each of them has been stored to. -/
def Buf.bytes (b : Buf) (n : Nat) : Option (List Char) :=
  read_all (stores_read b.stores) (List.range n)

/-- Every store of the log lies inside the block. -/
def Buf.in_bounds (b : Buf) : Prop :=
  ∀ s ∈ b.stores, s.1 < b.cap

instance (b : Buf) : Decidable b.in_bounds := by
  unfold Buf.in_bounds; infer_instance

/-- Modelled from the spec: `ngx_snprintf(data + off, max, fmt, ...)`, nginx
core code that is not in `src/`; `text` is the fully formatted output, of
which nginx stores at most `max` bytes, without a terminator. -/
def ngx_snprintf (b : Buf) (off max : Nat) (text : List Char) : Buf :=
  b.write off (text.take max)

/-- Modelled from the spec: `ngx_memzero(data + off, n)`, an nginx core macro
that is not in `src/`: `n` zero bytes stored from `off` on. -/
def ngx_memzero (b : Buf) (off n : Nat) : Buf :=
  b.write off (List.replicate n (Char.ofNat 0))

/-- Modelled from the spec: the nginx core type `ngx_str_t`, not declared in
`src/`: a length and a data pointer. -/
structure ngx_str_t where
  len : Nat
  data : Option Buf
deriving DecidableEq, Repr

/-- The string an `ngx_str_t` denotes: the `len` bytes at `data`. -/
def ngx_str_t.value (s : ngx_str_t) : Option String :=
  match s.data with
  | none => none
  | some b => (b.bytes s.len).map String.mk

/-- Modelled from the spec: the nginx core type `ngx_pool_t`, not declared in
`src/`, reduced to the outcomes of the allocation requests still to come
(`true`: memory is returned, `false`: the request yields `NULL`); requests
beyond the list succeed. -/
structure ngx_pool_t where
  pnalloc_ok : List Bool
deriving DecidableEq, Repr

/-- Modelled from the spec: `ngx_pnalloc(pool, size)`, nginx core code that is
not in `src/`: whether a block is returned, and the pool afterwards. -/
def ngx_pnalloc (pool : ngx_pool_t) : Bool × ngx_pool_t :=
  match pool.pnalloc_ok with
  | [] => (true, pool)
  | ok :: rest => (ok, { pnalloc_ok := rest })

/-- Modelled from the spec: the record `ngx_ssl_ja3_t`, declared in
`ngx_ssl_ja3.h`, which is not in `src/`: the version and, for each of the
four lists, an element count and an array pointer.  Cipher elements are
`unsigned short`, extension elements `int`, curve and point-format elements
`unsigned char` (the sizes the builder allocates); all are held as `Int`, the
type `%d` prints. -/
structure ngx_ssl_ja3_t where
  version : Int
  ciphers_sz : Nat
  ciphers : Option (List Int)
  extensions_sz : Nat
  extensions : Option (List Int)
  curves_sz : Nat
  curves : Option (List Int)
  point_formats_sz : Nat
  point_formats : Option (List Int)
deriving DecidableEq, Repr

/-- The load `a[i]`; `none` through a null pointer or past the array. -/
def arr_read (a : Option (List Int)) (i : Nat) : Option Int :=
  a.bind (fun l => l[i]?)

/-- The store `a[j] = v`; `none` past the array. -/
def arr_store (a : List Int) (j : Nat) (v : Int) : Option (List Int) :=
  if j < a.length then some (a.set j v) else none

/-- The list a count and an array pointer denote: the first `sz` elements. -/
def arr_list (sz : Nat) (a : Option (List Int)) : List Int :=
  (a.getD []).take sz

/-- The array holds at least `sz` elements (any pointer will do for none). -/
def arr_ok (sz : Nat) (a : Option (List Int)) : Prop :=
  sz ≤ (a.getD []).length

instance (sz : Nat) (a : Option (List Int)) : Decidable (arr_ok sz a) := by
  unfold arr_ok; infer_instance

/-- Every array of the record holds the elements its count announces. -/
def ngx_ssl_ja3_t.wf (r : ngx_ssl_ja3_t) : Prop :=
  arr_ok r.ciphers_sz r.ciphers ∧ arr_ok r.extensions_sz r.extensions ∧
  arr_ok r.curves_sz r.curves ∧ arr_ok r.point_formats_sz r.point_formats

instance (r : ngx_ssl_ja3_t) : Decidable r.wf := by
  unfold ngx_ssl_ja3_t.wf; infer_instance

/-! ## The serializer `ngx_ssl_ja3_fp` (lines 177-281) -/

/-- One list of the length pass:
`if (sz) { for (i...) len += num_digits(a[i]); len += sz - 1; }`. -/
def fp_len_list (sz : Nat) (a : Option (List Int)) (len : Nat) : Option Nat :=
  if sz ≠ 0 then do
    let len ← (List.range sz).foldlM
      (fun len i => do
        let v ← arr_read a i
        pure (len + ngx_ssj_ja3_num_digits v)) len
    pure (len + (sz - 1))
  else pure len

/-- The length pass (lines 186-218): the value of `len` handed to
`ngx_pnalloc`. -/
def fp_length_pass (ja3 : ngx_ssl_ja3_t) : Option Nat := do
  let len := 0
  let len := len + ngx_ssj_ja3_num_digits ja3.version
  let len := len + 1
  let len ← fp_len_list ja3.ciphers_sz ja3.ciphers len
  let len := len + 1
  let len ← fp_len_list ja3.extensions_sz ja3.extensions len
  let len := len + 1
  let len ← fp_len_list ja3.curves_sz ja3.curves len
  let len := len + 1
  fp_len_list ja3.point_formats_sz ja3.point_formats len

/-- One iteration of a write loop, on the cursor `cur` and the buffer:
`if (i > 0) snprintf(data + cur++, 1, "-"); len = num_digits(a[i]);
snprintf(data + cur, len, "%d", a[i]); cur += len;`. -/
def fp_write_elem (a : Option (List Int)) (st : Nat × Buf) (i : Nat) :
    Option (Nat × Buf) := do
  let st := if i > 0 then (st.1 + 1, ngx_snprintf st.2 st.1 1 ['-']) else st
  let v ← arr_read a i
  let len := ngx_ssj_ja3_num_digits v
  pure (st.1 + len, ngx_snprintf st.2 st.1 len (ngx_fmt_d v))

/-- One list of the write pass: `if (sz) { for (i = 0; i < sz; i++) ... }`. -/
def fp_write_list (sz : Nat) (a : Option (List Int)) (st : Nat × Buf) :
    Option (Nat × Buf) :=
  if sz ≠ 0 then (List.range sz).foldlM (fp_write_elem a) st else pure st

/-- The separator store `ngx_snprintf(out->data + (cur++), 1, ",")`. -/
def fp_write_comma (st : Nat × Buf) : Nat × Buf :=
  (st.1 + 1, ngx_snprintf st.2 st.1 1 [','])

/-- The write pass (lines 223-276) into the block `b`: the final cursor and
the block after all stores, the terminating zero included. -/
def fp_write_pass (ja3 : ngx_ssl_ja3_t) (b : Buf) : Option (Nat × Buf) := do
  let cur := 0
  let len := ngx_ssj_ja3_num_digits ja3.version + 1
  let b := ngx_snprintf b cur len (ngx_fmt_d ja3.version ++ [','])
  let cur := cur + len
  let st ← fp_write_list ja3.ciphers_sz ja3.ciphers (cur, b)
  let st := fp_write_comma st
  let st ← fp_write_list ja3.extensions_sz ja3.extensions st
  let st := fp_write_comma st
  let st ← fp_write_list ja3.curves_sz ja3.curves st
  let st := fp_write_comma st
  let st ← fp_write_list ja3.point_formats_sz ja3.point_formats st
  pure (st.1, ngx_memzero st.2 st.1 1)

/-- The body of `ngx_ssl_ja3_fp` behind its null-pointer guard.  The result of
`ngx_pnalloc` is not tested: when it is `NULL` the first `ngx_snprintf`
(at least two bytes) stores through the null pointer, which is the `none`
of the `none` branch.  The logging calls change no state. -/
def fp_body (pool : ngx_pool_t) (ja3 : ngx_ssl_ja3_t) : Option ngx_str_t := do
  let len ← fp_length_pass ja3
  let data : Option Buf :=
    if (ngx_pnalloc pool).1 then some { cap := len, stores := [] } else none
  match data with
  | none => none
  | some b =>
    let st ← fp_write_pass ja3 b
    pure { len := st.1, data := some st.2 }

/-- `ngx_ssl_ja3_fp(pool, ja3, out)`: the string `out` points to after the
call (`out` itself when one of the three pointers is null); the outer `none`
is a memory fault. -/
def ngx_ssl_ja3_fp (pool : Option ngx_pool_t) (ja3 : Option ngx_ssl_ja3_t)
    (out : Option ngx_str_t) : Option (Option ngx_str_t) :=
  match pool, ja3, out with
  | some p, some r, some _ => (fp_body p r).map some
  | _, _, _ => some out

/-! ## The text the serializer lays down -/

/-- The bytes one list element contributes: the first `num_digits` bytes of
its `%d` text. -/
def elem_text (v : Int) : List Char :=
  (ngx_fmt_d v).take (ngx_ssj_ja3_num_digits v)

/-- Pieces joined by single `'-'` characters. -/
def dash_join : List (List Char) → List Char
  | [] => []
  | [x] => x
  | x :: y :: r => x ++ '-' :: dash_join (y :: r)

/-- The bytes of one list field. -/
def field_text (l : List Int) : List Char :=
  dash_join (l.map elem_text)

/-- The bytes of the version field with its separator, as the first
`ngx_snprintf` of the write pass stores them. -/
def version_text (v : Int) : List Char :=
  (ngx_fmt_d v ++ [',']).take (ngx_ssj_ja3_num_digits v + 1)

/-- All bytes of the write pass before the terminating zero. -/
def fp_text (r : ngx_ssl_ja3_t) : List Char :=
  version_text r.version ++ field_text (arr_list r.ciphers_sz r.ciphers) ++ [','] ++
    field_text (arr_list r.extensions_sz r.extensions) ++ [','] ++
    field_text (arr_list r.curves_sz r.curves) ++ [','] ++
    field_text (arr_list r.point_formats_sz r.point_formats)

/-! ## The canonical string of the specification -/

/-- The canonical string as the specification words it (section 4.4, write
pass): the five fields separated by `,`, the elements of a list joined by
`-`, every integer in plain decimal. -/
def canonical_ja3 (version : Int) (ciphers extensions curves point_formats : List Int) :
    String :=
  toString version ++ "," ++ "-".intercalate (ciphers.map toString) ++ "," ++
    "-".intercalate (extensions.map toString) ++ "," ++
    "-".intercalate (curves.map toString) ++ "," ++
    "-".intercalate (point_formats.map toString)

/-! ## The record builder `ngx_ssl_ja3` (lines 288-407) -/

/-- One byte of memory. -/
abbrev Byte := Fin 256

/-- Modelled from the spec: the OpenSSL object `SSL`, not declared in `src/`,
reduced to what the accessors called by the builder report about a
handshake: `SSL_version`, the length and pointer of `SSL_get0_raw_cipherlist`
(wire bytes, two per cipher suite), the identifiers of `SSL_get1_curves`, the
length and pointer of `SSL_get0_ec_point_formats`. -/
structure SSL where
  version : Int
  raw_cipherlist_len : Nat
  raw_cipherlist : Option (List Byte)
  curves : List Int
  ec_point_formats_len : Nat
  ec_point_formats : Option (List Byte)
deriving DecidableEq, Repr

/-- Modelled from the spec: the nginx type behind `c->ssl`, not declared in
`src/`, reduced to the fields the builder reads; `session` tells whether the
session held by the `SSL` object behind `connection` is non-null, which is
what `ngx_ssl_get_session(c)` returns when `connection` is not null. -/
structure ngx_ssl_connection_t where
  handshaked : Bool
  session : Bool
  connection : Option SSL
  client_extensions_size : Nat
  client_extensions : Option (List Int)
deriving DecidableEq, Repr

/-- Modelled from the spec: the nginx core type `ngx_connection_t`, not
declared in `src/`, reduced to its `ssl` pointer. -/
structure ngx_connection_t where
  ssl : Option ngx_ssl_connection_t
deriving DecidableEq, Repr

/-- The nginx return code `NGX_OK`. -/
def NGX_OK : Int := 0

/-- The nginx return code `NGX_DECLINED`. -/
def NGX_DECLINED : Int := -5

/-- The load `ciphers_out[i]`: the `unsigned short` the host finds in bytes
`2i` and `2i+1` of the raw list, promoted to `int`. -/
def load_u16 (little_endian : Bool) (p : List Byte) (i : Nat) : Option Int := do
  let b0 ← p[2 * i]?
  let b1 ← p[2 * i + 1]?
  pure (if little_endian then ((b0.val + 256 * b1.val : Nat) : Int)
    else ((256 * b0.val + b1.val : Nat) : Int))

/-- The expression `(x & 0x00ff) << 8 | (x & 0xff00) >> 8` on an
`unsigned short` element, stored back into an `unsigned short`. -/
def swap_u16 (x : Int) : Int :=
  ((((x.toNat &&& 0x00ff) <<< 8 ||| (x.toNat &&& 0xff00) >>> 8) % 65536 : Nat) : Int)

/-- A block of `n` elements fresh from the allocator.  Its contents are
unspecified in C; the builder stores every element it later reads, and zeros
stand for the rest. -/
def fresh_array (n : Nat) : List Int :=
  List.replicate n 0

/-- One iteration of a filtering loop with write index `st.1` into the array
`st.2`: `if (! ngx_ssl_ja3_is_ext_greased(src[i])) dst[j++] = f(src[i]);`. -/
def ja3_filter_step (rd : Nat → Option Int) (f : Int → Int) (st : Nat × List Int)
    (i : Nat) : Option (Nat × List Int) := do
  let v ← rd i
  if ngx_ssl_ja3_is_ext_greased v = 0 then do
    let a ← arr_store st.2 st.1 (f v)
    pure (st.1 + 1, a)
  else pure st

/-- The loop `for (i = 0; i < n; ++i)` around `ja3_filter_step`, started with
write index 0 on a fresh array of `n` elements. -/
def ja3_filter_loop (rd : Nat → Option Int) (f : Int → Int) (n : Nat) :
    Option (Nat × List Int) :=
  (List.range n).foldlM (ja3_filter_step rd f) (0, fresh_array n)

/-- One iteration of the byte-swap loop (line 341). -/
def ja3_swap_step (a : List Int) (i : Nat) : Option (List Int) := do
  let x ← a[i]?
  arr_store a i (swap_u16 x)

/-- What a section of the builder hands on: `true` with the pool and record
when control falls through to the next section, `false` when the section
executed `return NGX_DECLINED`. -/
abbrev Section := Bool × ngx_pool_t × ngx_ssl_ja3_t

/-- Cipher suites (lines 319-345).  `little_endian` is both the byte order of
the host and the build flag `NGX_HAVE_LITTLE_ENDIAN`, which nginx's configure
sets exactly on little-endian hosts. -/
def ja3_cipher_suites (little_endian : Bool) (ssl : SSL) (pool : ngx_pool_t)
    (ja3 : ngx_ssl_ja3_t) : Option Section :=
  let ja3 := { ja3 with ciphers := none }
  let ja3 := { ja3 with ciphers_sz := ssl.raw_cipherlist_len }
  let ja3 := { ja3 with ciphers_sz := ja3.ciphers_sz / 2 }
  match ssl.raw_cipherlist with
  | none => some (true, pool, ja3)
  | some ciphers_out =>
    if ja3.ciphers_sz = 0 then some (true, pool, ja3)
    else if (ngx_pnalloc pool).1 = false then some (false, (ngx_pnalloc pool).2, ja3)
    else do
      let st ← ja3_filter_loop (load_u16 little_endian ciphers_out) id ja3.ciphers_sz
      let a ← if little_endian then (List.range st.1).foldlM ja3_swap_step st.2 else pure st.2
      pure (true, (ngx_pnalloc pool).2, { ja3 with ciphers := some a, ciphers_sz := st.1 })

/-- Extensions (lines 347-363). -/
def ja3_extensions (s : ngx_ssl_connection_t) (pool : ngx_pool_t) (ja3 : ngx_ssl_ja3_t) :
    Option Section :=
  let ja3 := { ja3 with extensions := none }
  let ja3 := { ja3 with extensions_sz := 0 }
  match s.client_extensions with
  | none => some (true, pool, ja3)
  | some client_extensions =>
    if s.client_extensions_size = 0 then some (true, pool, ja3)
    else if (ngx_pnalloc pool).1 = false then some (false, (ngx_pnalloc pool).2, ja3)
    else do
      let st ← ja3_filter_loop (fun i => client_extensions[i]?) id s.client_extensions_size
      pure (true, (ngx_pnalloc pool).2,
        { ja3 with extensions := some st.2, extensions_sz := st.1 })

/-- Elliptic curves (lines 365-392).  `malloc_ok` is the outcome of
`OPENSSL_malloc`; the second `SSL_get1_curves` call fills `curves_out` with
the identifiers. -/
def ja3_curves (t : NidTable) (malloc_ok : Bool) (ssl : SSL) (pool : ngx_pool_t)
    (ja3 : ngx_ssl_ja3_t) : Option Section :=
  let ja3 := { ja3 with curves_sz := ssl.curves.length }
  if ja3.curves_sz = 0 then some (true, pool, ja3)
  else if malloc_ok = false then some (false, pool, ja3)
  else
    let curves_out := ssl.curves
    if (ngx_pnalloc pool).1 = false then
      some (false, (ngx_pnalloc pool).2, { ja3 with curves := none })
    else do
      let st ← ja3_filter_loop (fun i => curves_out[i]?)
        (fun v => (ngx_ssl_ja3_nid_to_cid t v : Int)) ja3.curves_sz
      pure (true, (ngx_pnalloc pool).2, { ja3 with curves := some st.2, curves_sz := st.1 })

/-- Elliptic curve point formats (lines 394-404); `ngx_memcpy` copies
`point_formats_sz` bytes and faults when the source is shorter. -/
def ja3_point_formats (ssl : SSL) (pool : ngx_pool_t) (ja3 : ngx_ssl_ja3_t) :
    Option Section :=
  let ja3 := { ja3 with point_formats_sz := ssl.ec_point_formats_len }
  match ssl.ec_point_formats with
  | none => some (true, pool, ja3)
  | some point_formats_out =>
    if ja3.point_formats_sz = 0 then some (true, pool, ja3)
    else if (ngx_pnalloc pool).1 = false then
      some (false, (ngx_pnalloc pool).2, { ja3 with point_formats := none })
    else if ja3.point_formats_sz ≤ point_formats_out.length then
      let copy := (point_formats_out.take ja3.point_formats_sz).map
        (fun b => ((b.val : Nat) : Int))
      some (true, (ngx_pnalloc pool).2, { ja3 with point_formats := some copy })
    else none

/-- Sequencing of two sections: a memory fault and `return NGX_DECLINED` both
end the call. -/
def ja3_then (x : Option Section) (k : ngx_pool_t → ngx_ssl_ja3_t → Option (Int × ngx_ssl_ja3_t)) :
    Option (Int × ngx_ssl_ja3_t) :=
  match x with
  | none => none
  | some (false, _, ja3) => some (NGX_DECLINED, ja3)
  | some (true, pool, ja3) => k pool ja3

/-- Modelled from the spec: `ngx_ssl_get_session(c)`, the nginx macro
`SSL_get1_session(c->ssl->connection)`, which is not in `src/`: OpenSSL reads
the session through the `SSL` pointer, so a null `connection` is a memory
fault (`none`); otherwise the result tells whether the session is non-null. -/
def ngx_ssl_get_session (s : ngx_ssl_connection_t) : Option Bool :=
  match s.connection with
  | none => none
  | some _ => some s.session

/-- `ngx_ssl_ja3(c, pool, ja3)`: the return code and the record afterwards;
`none` is a memory fault.  `t` holds the OpenSSL identifier values,
`little_endian` the byte order of the host, `malloc_ok` the outcome of
`OPENSSL_malloc`.  The session is fetched (line 306) before `connection` is
tested (line 312). -/
def ngx_ssl_ja3 (t : NidTable) (little_endian malloc_ok : Bool) (c : ngx_connection_t)
    (pool : ngx_pool_t) (ja3 : ngx_ssl_ja3_t) : Option (Int × ngx_ssl_ja3_t) :=
  match c.ssl with
  | none => some (NGX_DECLINED, ja3)
  | some s =>
    if s.handshaked = false then some (NGX_DECLINED, ja3)
    else
      match ngx_ssl_get_session s with
      | none => none
      | some ssl_session =>
        if ssl_session = false then some (NGX_DECLINED, ja3)
        else
          match s.connection with
          | none => some (NGX_DECLINED, ja3)
          | some ssl =>
            let ja3 := { ja3 with version := ssl.version }
            ja3_then (ja3_cipher_suites little_endian ssl pool ja3) fun pool ja3 =>
            ja3_then (ja3_extensions s pool ja3) fun pool ja3 =>
            ja3_then (ja3_curves t malloc_ok ssl pool ja3) fun pool ja3 =>
            ja3_then (ja3_point_formats ssl pool ja3) fun _ ja3 =>
            some (NGX_OK, ja3)

/-! ## Vocabulary of the statements about the builder -/

/-- The cipher suites of a raw list as pairs of wire bytes, a trailing odd
byte dropped (`ciphers_sz /= 2`). -/
def wire_pairs : List Byte → List (Byte × Byte)
  | b0 :: b1 :: rest => (b0, b1) :: wire_pairs rest
  | _ => []

/-- The network-order (big-endian) value `256*b0 + b1` of a wire pair. -/
def be16 (p : Byte × Byte) : Int :=
  ((256 * p.1.val + p.2.val : Nat) : Int)

/-- The value the host loads from a wire pair. -/
def host16 (little_endian : Bool) (p : Byte × Byte) : Int :=
  if little_endian then ((p.1.val + 256 * p.2.val : Nat) : Int) else be16 p

/-- Every allocation request still to come succeeds. -/
def ngx_pool_t.ok (pool : ngx_pool_t) : Prop :=
  ∀ b ∈ pool.pnalloc_ok, b = true

instance (pool : ngx_pool_t) : Decidable pool.ok := by
  unfold ngx_pool_t.ok; infer_instance

/-- A length and pointer pair reported by an OpenSSL accessor agree: the
length is the number of elements the pointer points to, 0 for a null
pointer. -/
def len_ok {α : Type} (len : Nat) (p : Option (List α)) : Prop :=
  len = (p.getD []).length

instance {α : Type} (len : Nat) (p : Option (List α)) : Decidable (len_ok len p) := by
  unfold len_ok; infer_instance

/-- The extension array, when there is one, has `size` elements; a null
array may come with any size. -/
def ext_len_ok (size : Nat) (p : Option (List Int)) : Prop :=
  match p with
  | some l => size = l.length
  | none => True

instance (size : Nat) (p : Option (List Int)) : Decidable (ext_len_ok size p) := by
  unfold ext_len_ok; cases p <;> infer_instance

/-- A connection whose handshake is complete, with `SSL` object `ssl`, whose
extension array (when there is one) has `client_extensions_size` elements and
whose OpenSSL accessors report matching lengths. -/
def handshake_done (c : ngx_connection_t) (s : ngx_ssl_connection_t) (ssl : SSL) : Prop :=
  c.ssl = some s ∧ s.handshaked = true ∧ s.session = true ∧ s.connection = some ssl ∧
    ext_len_ok s.client_extensions_size s.client_extensions ∧
    len_ok ssl.raw_cipherlist_len ssl.raw_cipherlist ∧
    len_ok ssl.ec_point_formats_len ssl.ec_point_formats

instance (c : ngx_connection_t) (s : ngx_ssl_connection_t) (ssl : SSL) :
    Decidable (handshake_done c s ssl) := by
  unfold handshake_done; infer_instance

/-- The raw extension list the connection exposes: empty when the size is 0
or there is no array. -/
def raw_extensions (s : ngx_ssl_connection_t) : List Int :=
  if s.client_extensions_size = 0 then [] else s.client_extensions.getD []

/-- The raw cipher list, as wire pairs: empty when there is no array. -/
def raw_ciphers (ssl : SSL) : List (Byte × Byte) :=
  wire_pairs (ssl.raw_cipherlist.getD [])

/-- The raw point-format list: empty when there is no array. -/
def raw_point_formats (ssl : SSL) : List Byte :=
  ssl.ec_point_formats.getD []

/-- The test `! ngx_ssl_ja3_is_ext_greased(v)` of the filtering loops. -/
def not_greased (v : Int) : Bool :=
  decide (ngx_ssl_ja3_is_ext_greased v = 0)

/-- The `SSL` object of the GREASE removal example: version 771, cipher wire
bytes `0a 0a 13 01 1a 1a` (raw ciphers 0x0a0a, 4865, 0x1a1a), curves
secp256r1, a GREASE identifier, secp384r1 and an unknown one, point formats
0 and 1. -/
def example_ssl : SSL :=
  { version := 771
    raw_cipherlist_len := 6
    raw_cipherlist := some [0x0a, 0x0a, 0x13, 0x01, 0x1a, 0x1a]
    curves := [415, 0x0a0a, 715, 5]
    ec_point_formats_len := 2
    ec_point_formats := some [0, 1] }

/-- The `c->ssl` of the example: handshake complete, extensions 0, a GREASE
value, 23. -/
def example_ssl_conn : ngx_ssl_connection_t :=
  { handshaked := true
    session := true
    connection := some example_ssl
    client_extensions_size := 3
    client_extensions := some [0, 0x0a0a, 23] }

/-- The connection of the example. -/
def example_conn : ngx_connection_t :=
  { ssl := some example_ssl_conn }

/-- A caller's record before the call. -/
def blank_record : ngx_ssl_ja3_t :=
  { version := 0
    ciphers_sz := 0
    ciphers := none
    extensions_sz := 0
    extensions := none
    curves_sz := 0
    curves := none
    point_formats_sz := 0
    point_formats := none }

/-! ## Vocabulary of the statements about the serializer -/

/-- Neither the version nor an element of the four lists is negative. -/
def ngx_ssl_ja3_t.nonneg (r : ngx_ssl_ja3_t) : Prop :=
  0 ≤ r.version ∧ (∀ v ∈ arr_list r.ciphers_sz r.ciphers, 0 ≤ v) ∧
    (∀ v ∈ arr_list r.extensions_sz r.extensions, 0 ≤ v) ∧
    (∀ v ∈ arr_list r.curves_sz r.curves, 0 ≤ v) ∧
    (∀ v ∈ arr_list r.point_formats_sz r.point_formats, 0 ≤ v)

instance (r : ngx_ssl_ja3_t) : Decidable r.nonneg := by
  unfold ngx_ssl_ja3_t.nonneg; infer_instance

/-- The canonical string of a record. -/
def ngx_ssl_ja3_t.canonical (r : ngx_ssl_ja3_t) : String :=
  canonical_ja3 r.version (arr_list r.ciphers_sz r.ciphers)
    (arr_list r.extensions_sz r.extensions) (arr_list r.curves_sz r.curves)
    (arr_list r.point_formats_sz r.point_formats)

/-- A record from a version and four lists, each array exactly as long as its
count. -/
def record_of (version : Int) (ciphers extensions curves point_formats : List Int) :
    ngx_ssl_ja3_t :=
  { version := version
    ciphers_sz := ciphers.length
    ciphers := some ciphers
    extensions_sz := extensions.length
    extensions := some extensions
    curves_sz := curves.length
    curves := some curves
    point_formats_sz := point_formats.length
    point_formats := some point_formats }

/-- End-to-end example 1 of the specification. -/
def example_1 : ngx_ssl_ja3_t :=
  record_of 771 [] [] [23, 24] [0]

/-- End-to-end example 2 of the specification. -/
def example_2 : ngx_ssl_ja3_t :=
  record_of 772 [4865, 4866] [0, 23, 65281] [29] [0, 1, 2]

/-- End-to-end example 3 of the specification: version 769, four empty lists. -/
def example_3 : ngx_ssl_ja3_t :=
  record_of 769 [] [] [] []

/-- A pool whose allocations all succeed. -/
def good_pool : ngx_pool_t :=
  { pnalloc_ok := [] }

/-- An `out` argument before the call. -/
def blank_str : ngx_str_t :=
  { len := 0, data := none }

/-! ## Further example inputs -/

/-- A connection without TLS context: `c->ssl` is null. -/
def plain_conn : ngx_connection_t :=
  { ssl := none }

/-- The `SSL` object of a completed handshake that offered nothing: no raw
cipher list, no curves, no point formats. -/
def empty_ssl : SSL :=
  { version := 769
    raw_cipherlist_len := 0
    raw_cipherlist := none
    curves := []
    ec_point_formats_len := 0
    ec_point_formats := none }

/-- The `c->ssl` of a completed handshake with `empty_ssl` and no extension
array. -/
def empty_ssl_conn : ngx_ssl_connection_t :=
  { handshaked := true
    session := true
    connection := some empty_ssl
    client_extensions_size := 0
    client_extensions := none }

/-- The connection of a completed handshake whose four lists are empty. -/
def empty_conn : ngx_connection_t :=
  { ssl := some empty_ssl_conn }

/-- A pool whose next allocation request yields `NULL`. -/
def failing_pool : ngx_pool_t :=
  { pnalloc_ok := [false] }

/-- The GREASE filtering step of the builder on a list `xs`: the filtering
loop without mapping (as for ciphers and extensions), reading `xs[i]` into a
fresh array of as many elements; the result is the list the final count and
the array denote. -/
def grease_filter (xs : List Int) : Option (List Int) :=
  (ja3_filter_loop (fun i => xs[i]?) id xs.length).map (fun st => st.2.take st.1)

/-! ## Reading decimal text -/

/-- The number a string of decimal digits denotes. -/
def decimal_value (cs : List Char) : Nat :=
  cs.foldl (fun acc c => 10 * acc + (c.toNat - 48)) 0

/-! ## A handshaked connection without `SSL` object -/

/-- The `c->ssl` of a connection marked as handshaked whose `connection`
pointer is null. -/
def null_ssl_conn : ngx_ssl_connection_t :=
  { handshaked := true
    session := false
    connection := none
    client_extensions_size := 0
    client_extensions := none }

/-- A connection with TLS context, marked as handshaked, without underlying
`SSL` object. -/
def null_ssl_object_conn : ngx_connection_t :=
  { ssl := some null_ssl_conn }

/-- The `c->ssl` of `null_ssl_conn` before the handshake is marked complete. -/
def unhandshaked_ssl_conn : ngx_ssl_connection_t :=
  { null_ssl_conn with handshaked := false }

/-- The `c->ssl` of the example handshake when OpenSSL holds no session. -/
def sessionless_ssl_conn : ngx_ssl_connection_t :=
  { example_ssl_conn with session := false }

/-! # Theorems -/

/-! ## Facts about the digit counter and the `%d` text -/

theorem toDigitsCore_acc (fuel : Nat) : ∀ (n : Nat) (ds : List Char),
    Nat.toDigitsCore 10 fuel n ds = Nat.toDigitsCore 10 fuel n [] ++ ds := by
  induction fuel with
  | zero => intro n ds; simp [Nat.toDigitsCore]
  | succ f ih =>
    intro n ds
    simp only [Nat.toDigitsCore]
    by_cases h : n / 10 = 0
    · simp [h]
    · simp only [h, if_false]
      rw [ih (n / 10) (Nat.digitChar (n % 10) :: ds), ih (n / 10) [Nat.digitChar (n % 10)]]
      simp

theorem num_digits_loop_eq (m : Nat) : ∀ (f1 f2 : Nat) (c : Int), 1 ≤ m → m ≤ f1 → m < f2 →
    num_digits_loop f1 (m : Int) c = c + ((Nat.toDigitsCore 10 f2 m []).length : Int) := by
  induction m using Nat.strong_induction_on with
  | _ m ih =>
    intro f1 f2 c hm h1 h2
    obtain ⟨g1, rfl⟩ : ∃ g, f1 = g + 1 := ⟨f1 - 1, by omega⟩
    obtain ⟨g2, rfl⟩ : ∃ g, f2 = g + 1 := ⟨f2 - 1, by omega⟩
    have hne : (m : Int) ≠ 0 := by omega
    have hdiv : (m : Int).tdiv 10 = ((m / 10 : Nat) : Int) := by
      rw [Int.tdiv_eq_ediv (by omega) (by omega)]; norm_cast
    simp only [num_digits_loop, hne, if_false, Nat.toDigitsCore, hdiv]
    by_cases h : m / 10 = 0
    · simp only [h, if_true, List.length_singleton]
      cases g1 <;> simp [num_digits_loop]
    · simp only [h, if_false]
      rw [toDigitsCore_acc, ih (m / 10) (by omega) g1 g2 (c + 1) (by omega) (by omega) (by omega)]
      simp only [List.length_append, List.length_singleton]
      push_cast
      ring

/-- The iteration bound of `ngx_ssj_ja3_num_digits` is never reached: any
larger bound gives the same count. -/
theorem num_digits_loop_fuel (n : Int) (h : 9 ≤ n) (fuel : Nat) (hf : n.toNat ≤ fuel) :
    num_digits_loop fuel n 0 = num_digits_loop n.toNat n 0 := by
  obtain ⟨m, rfl⟩ : ∃ m : Nat, n = (m : Int) := ⟨n.toNat, by omega⟩
  have hm : 1 ≤ m := by omega
  rw [num_digits_loop_eq m fuel (m + 1) 0 hm (by simpa using hf) (by omega),
    num_digits_loop_eq m (m : Int).toNat (m + 1) 0 hm (by simp) (by omega)]

theorem num_digits_eq_length (n : Int) (h : 0 ≤ n) :
    ngx_ssj_ja3_num_digits n = (Nat.toDigits 10 n.toNat).length := by
  obtain ⟨m, rfl⟩ : ∃ m : Nat, n = (m : Int) := ⟨n.toNat, by omega⟩
  unfold ngx_ssj_ja3_num_digits
  by_cases h9 : (m : Int) < 9
  · have : m / 10 = 0 := by omega
    simp [h9, Nat.toDigits, Nat.toDigitsCore, this]
  · simp only [h9, if_false, Int.toNat_ofNat]
    rw [num_digits_loop_eq m m (m + 1) 0 (by omega) (le_refl _) (by omega)]
    simp [Nat.toDigits]

theorem num_digits_le_fmt (v : Int) : ngx_ssj_ja3_num_digits v ≤ (ngx_fmt_d v).length := by
  by_cases h : v < 0
  · have h9 : v < 9 := by omega
    simp [ngx_ssj_ja3_num_digits, ngx_fmt_d, h, h9]
  · rw [num_digits_eq_length v (by omega)]
    simp [ngx_fmt_d, h]

theorem fmt_take_nonneg (v : Int) (h : 0 ≤ v) :
    (ngx_fmt_d v).take (ngx_ssj_ja3_num_digits v) = Nat.toDigits 10 v.toNat := by
  rw [num_digits_eq_length v h]
  have : ¬ v < 0 := by omega
  simp [ngx_fmt_d, this]

theorem dash_join_snoc (xs : List (List Char)) (y : List Char) :
    dash_join (xs ++ [y]) = if xs = [] then y else dash_join xs ++ '-' :: y := by
  induction xs with
  | nil => simp [dash_join]
  | cons x r ih =>
    cases r with
    | nil => simp [dash_join]
    | cons z r =>
      simp only [List.cons_append, dash_join] at ih ⊢
      simp [ih]

theorem elem_text_length (v : Int) : (elem_text v).length = ngx_ssj_ja3_num_digits v := by
  simp [elem_text, List.length_take, num_digits_le_fmt v]

theorem version_text_length (v : Int) :
    (version_text v).length = ngx_ssj_ja3_num_digits v + 1 := by
  have := num_digits_le_fmt v
  simp only [version_text, List.length_take, List.length_append, List.length_singleton]
  omega

theorem field_text_snoc (l : List Int) (v : Int) :
    field_text (l ++ [v]) =
      field_text l ++ ((if l = [] then [] else ['-']) ++ elem_text v) := by
  unfold field_text
  rw [List.map_append, List.map_singleton, dash_join_snoc]
  by_cases h : l = []
  · simp [h, dash_join]
  · simp [h]

theorem field_text_length (l : List Int) :
    (field_text l).length = (l.map ngx_ssj_ja3_num_digits).sum + (l.length - 1) := by
  induction l using List.reverseRecOn with
  | nil => simp [field_text, dash_join]
  | append_singleton l v ih =>
    rw [field_text_snoc, List.length_append, ih]
    by_cases h : l = []
    · simp [h, elem_text_length]
    · have : 0 < l.length := List.length_pos.mpr h
      simp [h, elem_text_length]
      omega

theorem arr_list_succ (l : List Int) (k : Nat) (h : k < l.length) :
    l.take (k + 1) = l.take k ++ [l[k]] := by
  rw [List.take_succ]
  simp [h]

/-! ## The two passes of the serializer, list by list -/

@[simp] theorem Buf.write_nil (b : Buf) (off : Nat) : b.write off [] = b := by
  cases b; simp [Buf.write]

theorem Buf.write_write (b : Buf) (off : Nat) (s t : List Char) :
    (b.write off s).write (off + s.length) t = b.write off (s ++ t) := by
  simp [Buf.write, List.enumFrom_append]

theorem fp_len_loop_eq (l : List Int) (len : Nat) : ∀ k, k ≤ l.length →
    (List.range k).foldlM
      (fun len i => do
        let v ← arr_read (some l) i
        pure (len + ngx_ssj_ja3_num_digits v)) len
      = some (len + ((l.take k).map ngx_ssj_ja3_num_digits).sum) := by
  intro k
  induction k with
  | zero => intro _; simp
  | succ k ih =>
    intro hk
    have hlt : k < l.length := by omega
    rw [List.range_succ, List.foldlM_append, ih (by omega), arr_list_succ l k hlt]
    simp [arr_read, hlt, Nat.add_assoc]

theorem fp_len_list_eq (sz : Nat) (a : Option (List Int)) (len : Nat) (h : arr_ok sz a) :
    fp_len_list sz a len = some (len + (field_text (arr_list sz a)).length) := by
  unfold fp_len_list
  by_cases h0 : sz = 0
  · simp [h0, arr_list, field_text, dash_join]
  · cases a with
    | none => simp [arr_ok] at h; exact absurd h h0
    | some l =>
      simp only [arr_ok, Option.getD_some] at h
      simp only [ne_eq, h0, not_false_eq_true, if_true]
      rw [fp_len_loop_eq l len sz h, field_text_length]
      simp [arr_list, List.length_take, h, Nat.add_assoc]

theorem fp_write_loop_eq (l : List Int) (cur : Nat) (b : Buf) : ∀ k, k ≤ l.length →
    (List.range k).foldlM (fp_write_elem (some l)) (cur, b)
      = some (cur + (field_text (l.take k)).length, b.write cur (field_text (l.take k))) := by
  intro k
  induction k with
  | zero => intro _; simp [field_text, dash_join]
  | succ k ih =>
    intro hk
    have hlt : k < l.length := by omega
    rw [List.range_succ, List.foldlM_append, ih (by omega), arr_list_succ l k hlt,
      field_text_snoc]
    have hread : arr_read (some l) k = some l[k] := by simp [arr_read, hlt]
    have htake : (['-'] : List Char).take 1 = ['-'] := rfl
    by_cases h0 : k = 0
    · subst h0
      simp [fp_write_elem, hread, ngx_snprintf, elem_text, field_text, dash_join,
        elem_text_length, List.length_take, num_digits_le_fmt]
    · have hk0 : 0 < k := Nat.pos_of_ne_zero h0
      have hne : l.take k ≠ [] := by
        intro he
        have hl : (l.take k).length = k := by rw [List.length_take]; omega
        rw [he] at hl
        simp at hl
        omega
      simp only [Option.bind_eq_bind, Option.some_bind, List.foldlM_cons, List.foldlM_nil,
        fp_write_elem, hk0, if_true, hread, ngx_snprintf, htake, hne, if_false, gt_iff_lt,
        Option.pure_def, Option.bind_some]
      have e1 := Buf.write_write b cur (field_text (l.take k)) ['-']
      have e2 := Buf.write_write b cur (field_text (l.take k) ++ ['-']) (elem_text l[k])
      simp only [List.length_append, List.length_singleton, ← Nat.add_assoc] at e2
      rw [e1, show (ngx_fmt_d l[k]).take (ngx_ssj_ja3_num_digits l[k]) = elem_text l[k] from rfl,
        e2]
      simp [List.length_append, elem_text_length, Nat.add_assoc, Nat.add_comm]

theorem fp_write_list_eq (sz : Nat) (a : Option (List Int)) (b : Buf) (T : List Char)
    (h : arr_ok sz a) :
    fp_write_list sz a (T.length, b.write 0 T) =
      some ((T ++ field_text (arr_list sz a)).length,
        b.write 0 (T ++ field_text (arr_list sz a))) := by
  have hw := Buf.write_write b 0 T (field_text (arr_list sz a))
  rw [Nat.zero_add] at hw
  unfold fp_write_list
  by_cases h0 : sz = 0
  · simp [h0, arr_list, field_text, dash_join]
  · cases a with
    | none => simp [arr_ok] at h; exact absurd h h0
    | some l =>
      simp only [arr_ok, Option.getD_some] at h
      simp only [ne_eq, h0, not_false_eq_true, if_true]
      rw [fp_write_loop_eq l T.length (b.write 0 T) sz h]
      simp only [arr_list, Option.getD_some] at hw ⊢
      rw [hw, List.length_append]

theorem fp_write_comma_eq (b : Buf) (T : List Char) :
    fp_write_comma (T.length, b.write 0 T) = ((T ++ [',']).length, b.write 0 (T ++ [','])) := by
  have hw := Buf.write_write b 0 T [',']
  rw [Nat.zero_add] at hw
  simp only [fp_write_comma, ngx_snprintf, List.length_append, List.length_singleton]
  rw [show ([','] : List Char).take 1 = [','] from rfl, hw]

theorem fp_length_pass_eq (r : ngx_ssl_ja3_t) (h : r.wf) :
    fp_length_pass r = some (fp_text r).length := by
  obtain ⟨h1, h2, h3, h4⟩ := h
  simp only [fp_length_pass, Option.bind_eq_bind, fp_len_list_eq _ _ _ h1,
    fp_len_list_eq _ _ _ h2, fp_len_list_eq _ _ _ h3, fp_len_list_eq _ _ _ h4,
    Option.some_bind, fp_text, List.length_append, version_text_length, List.length_singleton]
  congr 1
  omega

theorem fp_write_pass_eq (r : ngx_ssl_ja3_t) (h : r.wf) (b : Buf) :
    fp_write_pass r b =
      some ((fp_text r).length,
        (b.write 0 (fp_text r)).write (fp_text r).length [Char.ofNat 0]) := by
  obtain ⟨h1, h2, h3, h4⟩ := h
  have hv : (0 + (ngx_ssj_ja3_num_digits r.version + 1),
      ngx_snprintf b 0 (ngx_ssj_ja3_num_digits r.version + 1) (ngx_fmt_d r.version ++ [',']))
      = ((version_text r.version).length, b.write 0 (version_text r.version)) := by
    rw [version_text_length, Nat.zero_add]; rfl
  simp only [fp_write_pass, Option.bind_eq_bind, hv, fp_write_list_eq _ _ _ _ h1,
    fp_write_list_eq _ _ _ _ h2, fp_write_list_eq _ _ _ _ h3, fp_write_list_eq _ _ _ _ h4,
    fp_write_comma_eq, Option.some_bind, Option.pure_def, ngx_memzero]
  rfl

/-- What `ngx_ssl_ja3_fp` leaves in `out` for a record whose arrays hold the
announced elements, when the pool returns a block: a block of
`len(fp_text)` bytes, the text stored at offsets `0 ..`, then one zero byte
stored at offset `len(fp_text)`. -/
theorem fp_body_eq (pool : ngx_pool_t) (r : ngx_ssl_ja3_t) (h : r.wf)
    (hp : (ngx_pnalloc pool).1 = true) :
    fp_body pool r = some
      { len := (fp_text r).length,
        data := some
          { cap := (fp_text r).length,
            stores := (fp_text r).enumFrom 0 ++ [((fp_text r).length, Char.ofNat 0)] } } := by
  simp only [fp_body, Option.bind_eq_bind, fp_length_pass_eq r h, Option.some_bind, hp, if_true,
    fp_write_pass_eq r h, Option.pure_def]
  simp [Buf.write]

/-! ## Reading the block back -/

theorem stores_read_append (xs ys : List (Nat × Char)) (i : Nat) :
    stores_read (xs ++ ys) i =
      match stores_read ys i with
      | some c => some c
      | none => stores_read xs i := by
  induction xs with
  | nil => simp only [List.nil_append, stores_read]; cases stores_read ys i <;> rfl
  | cons x xs ih =>
    obtain ⟨o, ch⟩ := x
    show stores_read ((o, ch) :: (xs ++ ys)) i = _
    rw [stores_read, ih, stores_read]
    generalize stores_read ys i = y
    cases y <;> rfl

theorem stores_read_enumFrom (T : List Char) : ∀ (k i : Nat),
    stores_read (T.enumFrom k) i = if k ≤ i then T[i - k]? else none := by
  induction T with
  | nil => intro k i; simp [stores_read]
  | cons c T ih =>
    intro k i
    simp only [List.enumFrom_cons, stores_read, ih]
    by_cases h1 : k + 1 ≤ i
    · have h2 : k ≤ i := by omega
      have h3 : i - k = (i - (k + 1)) + 1 := by omega
      simp only [h1, h2, if_true, h3, List.getElem?_cons_succ]
      cases T[i - (k + 1)]? <;> simp
      omega
    · by_cases h2 : k = i
      · subst h2; simp
      · have h3 : ¬ k ≤ i := by omega
        simp [h1, h2, h3]

theorem read_all_range' (f : Nat → Option Char) (T : List Char) : ∀ k,
    (∀ j (h : j < T.length), f (k + j) = some T[j]) →
    read_all f (List.range' k T.length) = some T := by
  induction T with
  | nil => intro k _; rfl
  | cons c T ih =>
    intro k h
    have h0 := h 0 (by simp)
    simp only [Nat.add_zero, List.getElem_cons_zero] at h0
    have hr := ih (k + 1) (fun j hj => by
      have := h (j + 1) (by simpa using hj)
      simpa [Nat.add_assoc, Nat.add_comm 1 j] using this)
    simp [List.range'_succ, read_all, h0, hr]

theorem bytes_of_text (T : List Char) (z : Char) :
    Buf.bytes { cap := T.length, stores := T.enumFrom 0 ++ [(T.length, z)] } T.length
      = some T := by
  unfold Buf.bytes
  rw [List.range_eq_range']
  apply read_all_range'
  intro j hj
  rw [stores_read_append, Nat.zero_add]
  have hz : stores_read [(T.length, z)] j = none := by
    have : ¬ T.length = j := by omega
    simp [stores_read, this]
  rw [hz, stores_read_enumFrom]
  simp [hj]

theorem toString_int_data (v : Int) (h : 0 ≤ v) :
    (toString v).data = Nat.toDigits 10 v.toNat := by
  obtain ⟨m, rfl⟩ : ∃ m : Nat, v = (m : Int) := ⟨v.toNat, by omega⟩
  rfl

theorem intercalate_go_data (sep : String) (l : List String) : ∀ acc : String,
    (String.intercalate.go acc sep l).data =
      acc.data ++ (l.map (fun a => sep.data ++ a.data)).flatten := by
  induction l with
  | nil => intro acc; simp [String.intercalate.go]
  | cons a l ih => intro acc; simp [String.intercalate.go, ih, String.data_append]

theorem dash_join_cons (x : List Char) (r : List (List Char)) :
    dash_join (x :: r) = x ++ (r.map (fun a => '-' :: a)).flatten := by
  induction r generalizing x with
  | nil => simp [dash_join]
  | cons y r ih => simp [dash_join, ih]

theorem intercalate_data (l : List String) :
    ("-".intercalate l).data = dash_join (l.map String.data) := by
  cases l with
  | nil => rfl
  | cons a l =>
    simp only [String.intercalate, intercalate_go_data, List.map_cons, dash_join_cons,
      List.map_map]
    rfl

theorem field_text_nonneg (l : List Int) (h : ∀ v ∈ l, 0 ≤ v) :
    field_text l = ("-".intercalate (l.map toString)).data := by
  rw [intercalate_data, field_text, List.map_map]
  congr 1
  apply List.map_congr_left
  intro v hv
  simp [elem_text, fmt_take_nonneg v (h v hv), toString_int_data v (h v hv)]

theorem version_text_nonneg (v : Int) (h : 0 ≤ v) :
    version_text v = (toString v).data ++ [','] := by
  have hlt : ¬ v < 0 := by omega
  rw [version_text, num_digits_eq_length v h, toString_int_data v h]
  simp [ngx_fmt_d, hlt]

/-- On a record without negative values the bytes laid down by the write pass
are the canonical string. -/
theorem fp_text_nonneg (r : ngx_ssl_ja3_t) (hv : 0 ≤ r.version)
    (h1 : ∀ v ∈ arr_list r.ciphers_sz r.ciphers, 0 ≤ v)
    (h2 : ∀ v ∈ arr_list r.extensions_sz r.extensions, 0 ≤ v)
    (h3 : ∀ v ∈ arr_list r.curves_sz r.curves, 0 ≤ v)
    (h4 : ∀ v ∈ arr_list r.point_formats_sz r.point_formats, 0 ≤ v) :
    fp_text r = (canonical_ja3 r.version (arr_list r.ciphers_sz r.ciphers)
      (arr_list r.extensions_sz r.extensions) (arr_list r.curves_sz r.curves)
      (arr_list r.point_formats_sz r.point_formats)).data := by
  simp only [fp_text, canonical_ja3, String.data_append, version_text_nonneg _ hv,
    field_text_nonneg _ h1, field_text_nonneg _ h2, field_text_nonneg _ h3,
    field_text_nonneg _ h4]


/-! ## The GREASE predicate and the curve mapper -/

theorem is_ext_greased_scan_eq (id : Int) (l : List Int) :
    is_ext_greased_scan id l = if id ∈ l then 1 else 0 := by
  induction l with
  | nil => simp [is_ext_greased_scan]
  | cons g l ih =>
    by_cases h : id = g
    · simp [is_ext_greased_scan, h]
    · simp [is_ext_greased_scan, h, ih]

theorem greased_eq (id : Int) :
    ngx_ssl_ja3_is_ext_greased id = if id ∈ GREASE then 1 else 0 :=
  is_ext_greased_scan_eq id GREASE

theorem mem_GREASE_iff (id : Int) :
    id ∈ GREASE ↔ ∃ k : Nat, k < 16 ∧ id = 0x1010 * (k : Int) + 0x0a0a := by
  constructor
  · intro h
    simp only [GREASE, List.mem_cons, List.mem_singleton, List.not_mem_nil, or_false] at h
    refine ⟨((id - 0x0a0a) / 0x1010).toNat, ?_, ?_⟩ <;> omega
  · rintro ⟨k, hk, rfl⟩
    interval_cases k <;> simp [GREASE]

/-- C3: `ngx_ssl_ja3_is_ext_greased(id)` returns 1 exactly for the sixteen
values `0x0a0a, 0x1a1a, ..., 0xfafa` (the values `0x1010 * k + 0x0a0a` with
`k < 16`) and 0 for every other `int`; the neighbour `0x0a0b` gives 0. -/
theorem ngx_ssl_ja3_is_ext_greased_exact (id : Int) :
    (ngx_ssl_ja3_is_ext_greased id = 1 ↔
      ∃ k : Nat, k < 16 ∧ id = 0x1010 * (k : Int) + 0x0a0a) ∧
    (ngx_ssl_ja3_is_ext_greased id = 0 ↔
      ¬ ∃ k : Nat, k < 16 ∧ id = 0x1010 * (k : Int) + 0x0a0a) ∧
    ngx_ssl_ja3_is_ext_greased 0x0a0b = 0 ∧
    (GREASE.map ngx_ssl_ja3_is_ext_greased = List.replicate 16 1) := by
  rw [greased_eq, ← mem_GREASE_iff]
  refine ⟨?_, ?_, by decide, by decide⟩ <;> by_cases h : id ∈ GREASE <;> simp [h]

theorem nid_to_cid_scan_eq (nid : Int) (l : List Int) : ∀ i, i + l.length < 256 →
    nid_to_cid_scan nid l i = if nid ∈ l then i + l.indexOf nid + 1 else 0 := by
  induction l with
  | nil => intro i _; simp [nid_to_cid_scan]
  | cons x l ih =>
    intro i hi
    simp only [List.length_cons] at hi
    have h1 : (i + 1) % 256 = i + 1 := Nat.mod_eq_of_lt (by omega)
    by_cases h : nid = x
    · subst h
      simp [nid_to_cid_scan, h1]
    · have hx : ¬ x = nid := fun e => h e.symm
      simp only [nid_to_cid_scan, h, if_false, h1, List.mem_cons, false_or]
      rw [ih (i + 1) (by omega), List.indexOf_cons_ne _ hx]
      by_cases hm : nid ∈ l
      · simp only [hm, if_true]; omega
      · simp [hm]

theorem nid_list_length (t : NidTable) : (nid_list t).length = 29 := rfl

theorem nid_to_cid_eq (t : NidTable) (nid : Int) :
    ngx_ssl_ja3_nid_to_cid t nid =
      if nid ∈ nid_list t then (nid_list t).indexOf nid + 1 else 0 := by
  unfold ngx_ssl_ja3_nid_to_cid
  rw [nid_to_cid_scan_eq nid (nid_list t) 0 (by rw [nid_list_length]; decide)]
  simp

theorem nid_to_cid_le (t : NidTable) (nid : Int) : ngx_ssl_ja3_nid_to_cid t nid ≤ 29 := by
  rw [nid_to_cid_eq]
  by_cases h : nid ∈ nid_list t
  · have := List.indexOf_lt_length.mpr h
    rw [nid_list_length] at this
    simp only [h, if_true]
    omega
  · simp [h]

/-- C4: `ngx_ssl_ja3_nid_to_cid` returns the 1-based position of the first
entry of the 29-entry `nid_list` equal to its argument, or 0 when no entry
matches; the result lies in 0..29; it is injective on the table identifiers;
and, the OpenSSL identifiers being pairwise distinct, the k-th entry maps to
k. -/
theorem ngx_ssl_ja3_nid_to_cid_first_match (t : NidTable) :
    (nid_list t).length = 29 ∧
    (∀ nid, nid ∉ nid_list t → ngx_ssl_ja3_nid_to_cid t nid = 0) ∧
    (∀ nid, nid ∈ nid_list t →
      ngx_ssl_ja3_nid_to_cid t nid = (nid_list t).indexOf nid + 1 ∧
      1 ≤ ngx_ssl_ja3_nid_to_cid t nid ∧ ngx_ssl_ja3_nid_to_cid t nid ≤ 29) ∧
    (∀ a ∈ nid_list t, ∀ b ∈ nid_list t,
      ngx_ssl_ja3_nid_to_cid t a = ngx_ssl_ja3_nid_to_cid t b → a = b) ∧
    ((nid_list t).Nodup →
      ∀ k (h : k < (nid_list t).length), ngx_ssl_ja3_nid_to_cid t (nid_list t)[k] = k + 1) := by
  refine ⟨rfl, ?_, ?_, ?_, ?_⟩
  · intro nid h
    simp [nid_to_cid_eq, h]
  · intro nid h
    have hlt := List.indexOf_lt_length.mpr h
    rw [nid_list_length] at hlt
    rw [nid_to_cid_eq]
    simp only [h, if_true]
    exact ⟨trivial, by omega, by omega⟩
  · intro a ha b hb hab
    simp only [nid_to_cid_eq, ha, hb, if_true, Nat.add_right_cancel_iff] at hab
    exact (List.indexOf_inj ha hb).mp hab
  · intro hd k h
    have hm : (nid_list t)[k] ∈ nid_list t := List.getElem_mem h
    simp only [nid_to_cid_eq, hm, if_true, Nat.add_right_cancel_iff]
    exact List.indexOf_getElem hd k h

/-- Witness of C4: the table of OpenSSL identifier values has no repetition,
and the mapper numbers its entries 1..29. -/
theorem ngx_ssl_ja3_nid_to_cid_first_match_witness :
    (nid_list openssl_nids).Nodup ∧
    (nid_list openssl_nids).map (ngx_ssl_ja3_nid_to_cid openssl_nids)
      = (List.range 29).map (· + 1) ∧
    (∀ k (h : k < (nid_list openssl_nids).length),
      ngx_ssl_ja3_nid_to_cid openssl_nids (nid_list openssl_nids)[k] = k + 1) :=
  ⟨by decide, by decide,
    (ngx_ssl_ja3_nid_to_cid_first_match openssl_nids).2.2.2.2 (by decide)⟩

/-! ## The serializer -/

theorem fp_eq (pool : ngx_pool_t) (r : ngx_ssl_ja3_t) (out : ngx_str_t) (h : r.wf)
    (hp : (ngx_pnalloc pool).1 = true) :
    ngx_ssl_ja3_fp (some pool) (some r) (some out) = some (some
      { len := (fp_text r).length,
        data := some
          { cap := (fp_text r).length,
            stores := (fp_text r).enumFrom 0 ++ [((fp_text r).length, Char.ofNat 0)] } }) := by
  simp [ngx_ssl_ja3_fp, fp_body_eq pool r h hp]

theorem fp_text_canonical (r : ngx_ssl_ja3_t) (h : r.nonneg) :
    fp_text r = r.canonical.data := by
  obtain ⟨hv, h1, h2, h3, h4⟩ := h
  exact fp_text_nonneg r hv h1 h2 h3 h4

theorem record_of_wf (v : Int) (cs es vs ps : List Int) : (record_of v cs es vs ps).wf := by
  simp [ngx_ssl_ja3_t.wf, record_of, arr_ok]

/-- C1: for every record whose arrays hold the announced elements and whose
version and list elements are non-negative, when the pool returns a block,
`ngx_ssl_ja3_fp` returns with the length computed by its length pass equal to
the size of the block it allocates, to the number of characters its write
pass stores (the final `out->len`; one more store is the terminator), and to
the length of the canonical string of the record. -/
theorem ngx_ssl_ja3_fp_length_pass_eq_written (pool : ngx_pool_t) (r : ngx_ssl_ja3_t)
    (out : ngx_str_t) (hwf : r.wf) (hnn : r.nonneg) (hp : (ngx_pnalloc pool).1 = true) :
    ∃ o b, ngx_ssl_ja3_fp (some pool) (some r) (some out) = some (some o) ∧
      o.data = some b ∧ fp_length_pass r = some b.cap ∧ b.cap = o.len ∧
      b.stores.length = o.len + 1 ∧ o.len = r.canonical.length := by
  refine ⟨_, _, fp_eq pool r out hwf hp, rfl, fp_length_pass_eq r hwf, rfl, ?_, ?_⟩
  · simp [List.enumFrom_length]
  · show (fp_text r).length = r.canonical.data.length
    rw [fp_text_canonical r hnn]

/-- Witness of C1: example 2 of the specification, a 33-character string. -/
theorem ngx_ssl_ja3_fp_length_pass_eq_written_witness :
    example_2.wf ∧ example_2.nonneg ∧ example_2.canonical.length = 33 ∧
    ∃ o b, ngx_ssl_ja3_fp (some good_pool) (some example_2) (some blank_str) = some (some o) ∧
      o.data = some b ∧ fp_length_pass example_2 = some b.cap ∧ b.cap = o.len ∧
      b.stores.length = o.len + 1 ∧ o.len = example_2.canonical.length :=
  ⟨record_of_wf _ _ _ _ _, by decide,
    by decide,
    ngx_ssl_ja3_fp_length_pass_eq_written good_pool example_2 blank_str
      (record_of_wf _ _ _ _ _)
      (by decide) rfl⟩

/-- C2: for every record whose arrays hold the announced elements and whose
values are non-negative, when the pool returns a block, the string
`ngx_ssl_ja3_fp` leaves in `out` is the canonical string
`decimal(version) , join(-, ciphers) , join(-, extensions) , join(-, curves) ,
join(-, point_formats)`; examples 1 and 2 of the specification give
`771,,,23-24,0` and `772,4865-4866,0-23-65281,29,0-1-2`. -/
theorem ngx_ssl_ja3_fp_writes_canonical :
    (∀ (pool : ngx_pool_t) (r : ngx_ssl_ja3_t) (out : ngx_str_t), r.wf → r.nonneg →
      (ngx_pnalloc pool).1 = true →
      ∃ o, ngx_ssl_ja3_fp (some pool) (some r) (some out) = some (some o) ∧
        o.value = some (canonical_ja3 r.version (arr_list r.ciphers_sz r.ciphers)
          (arr_list r.extensions_sz r.extensions) (arr_list r.curves_sz r.curves)
          (arr_list r.point_formats_sz r.point_formats))) ∧
    ((ngx_ssl_ja3_fp (some good_pool) (some example_1) (some blank_str)).bind
      (fun o => o.bind ngx_str_t.value) = some "771,,,23-24,0") ∧
    ((ngx_ssl_ja3_fp (some good_pool) (some example_2) (some blank_str)).bind
      (fun o => o.bind ngx_str_t.value) = some "772,4865-4866,0-23-65281,29,0-1-2") := by
  refine ⟨?_, by decide, by decide⟩
  intro pool r out hwf hnn hp
  refine ⟨_, fp_eq pool r out hwf hp, ?_⟩
  simp only [ngx_str_t.value, bytes_of_text, Option.map_some']
  rw [fp_text_canonical r hnn]
  rfl

/-- Witness of C2: example 1 of the specification run through the general
statement. -/
theorem ngx_ssl_ja3_fp_writes_canonical_witness :
    example_1.wf ∧ example_1.nonneg ∧ (ngx_pnalloc good_pool).1 = true ∧
    canonical_ja3 771 [] [] [23, 24] [0] = "771,,,23-24,0" ∧
    ∃ o, ngx_ssl_ja3_fp (some good_pool) (some example_1) (some blank_str) = some (some o) ∧
      o.value = some (canonical_ja3 771 [] [] [23, 24] [0]) :=
  ⟨record_of_wf _ _ _ _ _, by decide,
    rfl, by decide,
    ngx_ssl_ja3_fp_writes_canonical.1 good_pool example_1 blank_str (record_of_wf _ _ _ _ _)
      (by decide) rfl⟩

/-- The terminating zero of `ngx_ssl_ja3_fp` is stored at offset `out->len`,
which is the size of the block: one byte past its end, for every record. -/
theorem fp_terminator_past_block (pool : ngx_pool_t) (r : ngx_ssl_ja3_t) (out : ngx_str_t)
    (hwf : r.wf) (hp : (ngx_pnalloc pool).1 = true) :
    ∃ o b, ngx_ssl_ja3_fp (some pool) (some r) (some out) = some (some o) ∧
      o.data = some b ∧ (b.cap, Char.ofNat 0) ∈ b.stores ∧ ¬ b.in_bounds := by
  refine ⟨_, _, fp_eq pool r out hwf hp, rfl, by simp, ?_⟩
  intro hb
  have := hb ((fp_text r).length, Char.ofNat 0) (by simp)
  simp at this

/-- C10 (fails on the code): for version 769 and four empty lists the length
pass sizes the block at 7 bytes, the write pass stores the seven characters
`769,,,,` at offsets 0..6 and then the terminating zero at offset 7, which is
not smaller than the allocated length. -/
theorem ngx_ssl_ja3_fp_terminator_out_of_bounds :
    ngx_ssl_ja3_fp (some good_pool) (some example_3) (some blank_str) = some (some
      { len := 7,
        data := some
          { cap := 7,
            stores := [(0, '7'), (1, '6'), (2, '9'), (3, ','), (4, ','), (5, ','), (6, ','),
              (7, Char.ofNat 0)] } }) ∧
    ¬ Buf.in_bounds
      { cap := 7,
        stores := [(0, '7'), (1, '6'), (2, '9'), (3, ','), (4, ','), (5, ','), (6, ','),
          (7, Char.ofNat 0)] } := by
  refine ⟨by decide, ?_⟩
  intro hb
  have := hb (7, Char.ofNat 0) (by simp)
  simp at this

/-! ## The filtering loops of the builder -/

theorem take_set_snoc (a : List Int) (j : Nat) (v : Int) (h : j < a.length) :
    (a.set j v).take (j + 1) = a.take j ++ [v] := by
  rw [List.take_succ, List.set_take]
  have hj : (a.take j).length = j := by rw [List.length_take]; omega
  rw [List.set_eq_of_length_le (by omega)]
  simp [h]

theorem swap_set (a : List Int) (g : Int → Int) (k : Nat) (h : k < a.length) :
    ((a.take k).map g ++ a.drop k).set k (g a[k]) =
      (a.take (k + 1)).map g ++ a.drop (k + 1) := by
  have hk : ((a.take k).map g).length = k := by
    rw [List.length_map, List.length_take]; omega
  have ht : a.take (k + 1) = a.take k ++ [a[k]] := by rw [List.take_succ]; simp [h]
  rw [List.set_append_right _ _ (by omega), hk, Nat.sub_self, List.drop_eq_getElem_cons h,
    List.set_cons_zero, ht, List.map_append, List.append_assoc]
  rfl

theorem filter_loop_inv (rd : Nat → Option Int) (f : Int → Int) (xs a0 : List Int)
    (hrd : ∀ i (h : i < xs.length), rd i = some xs[i]) (ha0 : xs.length ≤ a0.length) :
    ∀ k, k ≤ xs.length →
      ∃ a, (List.range k).foldlM (ja3_filter_step rd f) (0, a0)
          = some (((xs.take k).filter not_greased).length, a) ∧
        a.length = a0.length ∧
        a.take ((xs.take k).filter not_greased).length
          = ((xs.take k).filter not_greased).map f := by
  intro k
  induction k with
  | zero => intro _; exact ⟨a0, by simp, rfl, by simp⟩
  | succ k ih =>
    intro hk
    have hlt : k < xs.length := by omega
    obtain ⟨a, hrun, hlen, htake⟩ := ih (by omega)
    have hj : ((xs.take k).filter not_greased).length ≤ k := by
      have h1 := List.length_filter_le not_greased (xs.take k)
      have h2 : (xs.take k).length = k := by rw [List.length_take]; omega
      omega
    rw [List.range_succ, List.foldlM_append, hrun, arr_list_succ xs k hlt, List.filter_append]
    by_cases hg : ngx_ssl_ja3_is_ext_greased xs[k] = 0
    · have hng : not_greased xs[k] = true := by simp [not_greased, hg]
      refine ⟨a.set ((xs.take k).filter not_greased).length (f xs[k]), ?_, by simpa using hlen, ?_⟩
      · have hst : ((xs.take k).filter not_greased).length < a.length := by omega
        simp [ja3_filter_step, hrd k hlt, hg, arr_store, hst, hng]
      · simp only [List.filter_cons, hng, if_true, List.filter_nil, List.length_append,
          List.length_singleton, List.map_append, List.map_cons, List.map_nil]
        rw [take_set_snoc a _ _ (by omega), htake]
    · have hng : not_greased xs[k] = false := by simp [not_greased, hg]
      refine ⟨a, ?_, hlen, ?_⟩
      · simp [ja3_filter_step, hrd k hlt, hg, hng]
      · simpa [List.filter_cons, hng] using htake

theorem ja3_filter_loop_eq (rd : Nat → Option Int) (f : Int → Int) (xs : List Int)
    (hrd : ∀ i (h : i < xs.length), rd i = some xs[i]) :
    ∃ a, ja3_filter_loop rd f xs.length = some ((xs.filter not_greased).length, a) ∧
      a.length = xs.length ∧
      a.take (xs.filter not_greased).length = (xs.filter not_greased).map f := by
  obtain ⟨a, h1, h2, h3⟩ :=
    filter_loop_inv rd f xs (fresh_array xs.length) hrd (by simp [fresh_array]) xs.length
      (le_refl _)
  rw [List.take_length] at h1 h3
  exact ⟨a, h1, by simpa [fresh_array] using h2, h3⟩

theorem swap_loop_eq (a : List Int) : ∀ k, k ≤ a.length →
    (List.range k).foldlM ja3_swap_step a = some ((a.take k).map swap_u16 ++ a.drop k) := by
  intro k
  induction k with
  | zero => intro _; simp
  | succ k ih =>
    intro hk
    have hlt : k < a.length := by omega
    have hk' : ((a.take k).map swap_u16).length = k := by
      rw [List.length_map, List.length_take]; omega
    have hget : ((a.take k).map swap_u16 ++ a.drop k)[k]? = some a[k] := by
      rw [List.getElem?_append_right (by omega), hk', Nat.sub_self, List.getElem?_drop]
      simp [hlt]
    have hlen : k < ((a.take k).map swap_u16 ++ a.drop k).length := by
      simp only [List.length_append, hk', List.length_drop]; omega
    rw [List.range_succ, List.foldlM_append, ih (by omega)]
    simp only [Option.bind_eq_bind, Option.some_bind, List.foldlM_cons, List.foldlM_nil,
      ja3_swap_step, hget, arr_store, hlen, if_true, Option.pure_def, Option.bind_some]
    rw [swap_set a swap_u16 k hlt]

/-! ## Wire bytes and byte order -/

theorem wire_pairs_length (l : List Byte) : (wire_pairs l).length = l.length / 2 := by
  induction l using wire_pairs.induct with
  | case1 b0 b1 rest ih =>
    simp only [wire_pairs, List.length_cons, ih]
    omega
  | case2 t ht =>
    match t, ht with
    | [], _ => rfl
    | [_], _ => simp [wire_pairs]
    | b0 :: b1 :: rest, ht => exact absurd rfl (fun e => ht b0 b1 rest e)

theorem load_u16_eq (le : Bool) (l : List Byte) :
    ∀ i (h : i < (wire_pairs l).length),
      load_u16 le l i = some (host16 le (wire_pairs l)[i]) := by
  induction l using wire_pairs.induct with
  | case1 b0 b1 rest ih =>
    intro i h
    cases i with
    | zero => cases le <;> simp [load_u16, wire_pairs, host16, be16]
    | succ i =>
      have := ih i (by simpa [wire_pairs] using h)
      simp only [load_u16, wire_pairs, List.getElem_cons_succ] at this ⊢
      rw [show 2 * (i + 1) = 2 * i + 1 + 1 by ring, show 2 * i + 1 + 1 + 1 = (2 * i + 1) + 1 + 1 by ring]
      simpa using this
  | case2 t ht =>
    intro i h
    match t, ht, h with
    | [], _, h => simp [wire_pairs] at h
    | [_], _, h => simp [wire_pairs] at h
    | b0 :: b1 :: rest, ht, _ => exact absurd rfl (fun e => ht b0 b1 rest e)

theorem and_ff00_shift (x : Nat) : (x &&& 0xff00) >>> 8 = (x / 256) % 256 := by
  have h : (x &&& 0xff00) >>> 8 = (x >>> 8) &&& (2 ^ 8 - 1) := by
    apply Nat.eq_of_testBit_eq
    intro i
    rw [show (0xff00 : Nat) = (2 ^ 8 - 1) <<< 8 from rfl]
    simp only [Nat.testBit_shiftRight, Nat.testBit_and, Nat.testBit_shiftLeft,
      Nat.testBit_two_pow_sub_one]
    simp
  rw [h, Nat.and_pow_two_sub_one_eq_mod, Nat.shiftRight_eq_div_pow]

theorem swap_bytes (b0 b1 : Nat) (h0 : b0 < 256) (h1 : b1 < 256) :
    (((b0 + 256 * b1) &&& 0x00ff) <<< 8 ||| ((b0 + 256 * b1) &&& 0xff00) >>> 8) % 65536
      = 256 * b0 + b1 := by
  have e1 : (b0 + 256 * b1) &&& 0x00ff = b0 := by
    have := Nat.and_pow_two_sub_one_eq_mod (b0 + 256 * b1) 8
    simp only [Nat.reducePow, Nat.add_one_sub_one] at this
    rw [show (0xff : Nat) = 255 from rfl, this]; omega
  have e2 : ((b0 + 256 * b1) &&& 0xff00) >>> 8 = b1 := by
    rw [and_ff00_shift]; omega
  have e3 := Nat.mul_add_lt_is_or (show b1 < 2 ^ 8 by simpa using h1) b0
  rw [e1, e2, Nat.shiftLeft_eq, Nat.mul_comm b0, ← e3]
  omega

/-- On a little-endian host the swap of line 341 turns the loaded value into
the network-order value of the wire pair. -/
theorem swap_u16_host16 (p : Byte × Byte) : swap_u16 (host16 true p) = be16 p := by
  simp only [swap_u16, host16, be16, if_true, Int.toNat_ofNat]
  rw [swap_bytes _ _ p.1.isLt p.2.isLt]

/-- A wire pair is a GREASE value in one byte order exactly when it is one in
the other. -/
theorem not_greased_host16 (le : Bool) (p : Byte × Byte) :
    not_greased (host16 le p) = not_greased (be16 p) := by
  cases le with
  | false => rfl
  | true =>
    have h0 := p.1.isLt
    have h1 := p.2.isLt
    have key : ((((p.1.val + 256 * p.2.val : Nat) : Int) ∈ GREASE) ↔
        (((256 * p.1.val + p.2.val : Nat) : Int) ∈ GREASE)) := by
      rw [mem_GREASE_iff, mem_GREASE_iff]
      constructor
      · rintro ⟨k, hk, e⟩; exact ⟨k, hk, by push_cast at e ⊢; omega⟩
      · rintro ⟨k, hk, e⟩; exact ⟨k, hk, by push_cast at e ⊢; omega⟩
    simp only [not_greased, host16, be16, if_true, greased_eq, key]

theorem not_greased_iff (v : Int) : not_greased v = decide (v ∉ GREASE) := by
  by_cases h : v ∈ GREASE <;> simp [not_greased, greased_eq, h]

/-! ## The sections of the builder -/

theorem pool_ok_pnalloc (pool : ngx_pool_t) (h : pool.ok) :
    (ngx_pnalloc pool).1 = true ∧ (ngx_pnalloc pool).2.ok := by
  obtain ⟨l⟩ := pool
  cases l with
  | nil => exact ⟨rfl, h⟩
  | cons b l =>
    simp only [ngx_pool_t.ok, List.mem_cons, forall_eq_or_imp] at h
    exact ⟨h.1, h.2⟩

theorem ja3_cipher_suites_eq (le : Bool) (ssl : SSL) (pool : ngx_pool_t) (ja3 : ngx_ssl_ja3_t)
    (hl : len_ok ssl.raw_cipherlist_len ssl.raw_cipherlist) (hp : pool.ok) :
    ∃ pool' sz a, ja3_cipher_suites le ssl pool ja3
        = some (true, pool', { ja3 with ciphers := a, ciphers_sz := sz }) ∧
      pool'.ok ∧ arr_ok sz a ∧
      sz = (((raw_ciphers ssl).filter (fun p => not_greased (host16 le p))).map be16).length ∧
      arr_list sz a = ((raw_ciphers ssl).filter (fun p => not_greased (host16 le p))).map be16 := by
  obtain ⟨hp1, hp2⟩ := pool_ok_pnalloc pool hp
  unfold ja3_cipher_suites raw_ciphers
  cases hraw : ssl.raw_cipherlist with
  | none =>
    have h0 : ssl.raw_cipherlist_len = 0 := by simpa [len_ok, hraw] using hl
    exact ⟨pool, 0, none, by simp [h0], hp, by simp [arr_ok], by simp [wire_pairs],
      by simp [wire_pairs, arr_list]⟩
  | some raw =>
    have hlen : ssl.raw_cipherlist_len = raw.length := by simpa [len_ok, hraw] using hl
    simp only [hlen, Option.getD_some]
    by_cases h0 : raw.length / 2 = 0
    · have hw : wire_pairs raw = [] := by
        apply List.length_eq_zero.mp; rw [wire_pairs_length]; exact h0
      exact ⟨pool, 0, none, by simp [h0], hp, by simp [arr_ok], by simp [hw],
        by simp [hw, arr_list]⟩
    · have hxs : ((wire_pairs raw).map (host16 le)).length = raw.length / 2 := by
        rw [List.length_map, wire_pairs_length]
      obtain ⟨a, hrun, halen, htake⟩ :=
        ja3_filter_loop_eq (load_u16 le raw) id ((wire_pairs raw).map (host16 le))
          (fun i h => by
            rw [load_u16_eq le raw i (by simpa using h)]
            simp)
      rw [hxs] at hrun halen
      have hfm : ((wire_pairs raw).map (host16 le)).filter not_greased
          = ((wire_pairs raw).filter (fun p => not_greased (host16 le p))).map (host16 le) := by
        rw [List.filter_map]; rfl
      rw [hfm] at hrun htake
      simp only [List.length_map, List.map_id', List.map_map] at hrun htake
      have hjle : ((wire_pairs raw).filter (fun p => not_greased (host16 le p))).length
          ≤ a.length := by
        have h1 := List.length_filter_le (fun p => not_greased (host16 le p)) (wire_pairs raw)
        rw [wire_pairs_length] at h1
        omega
      cases le with
      | false =>
        refine ⟨(ngx_pnalloc pool).2,
          ((wire_pairs raw).filter (fun p => not_greased (host16 false p))).length,
          some a, ?_, hp2, ?_, ?_, ?_⟩
        · simp [h0, hp1, hrun]
        · simpa [arr_ok] using hjle
        · simp
        · simp only [arr_list, Option.getD_some, htake]
          apply List.map_congr_left
          intro p _
          simp [host16]
      | true =>
        refine ⟨(ngx_pnalloc pool).2,
          ((wire_pairs raw).filter (fun p => not_greased (host16 true p))).length,
          some ((a.take ((wire_pairs raw).filter
            (fun p => not_greased (host16 true p))).length).map swap_u16
            ++ a.drop ((wire_pairs raw).filter (fun p => not_greased (host16 true p))).length),
          ?_, hp2, ?_, ?_, ?_⟩
        · simp only [h0, if_false, hp1, hrun, Option.bind_eq_bind, Option.some_bind,
            if_true, swap_loop_eq a _ hjle, Option.pure_def, Bool.true_eq_false]
        · simp only [arr_ok, Option.getD_some, List.length_append, List.length_map,
            List.length_take, List.length_drop]
          omega
        · simp
        · simp only [arr_list, Option.getD_some]
          rw [List.take_left' (by
            rw [List.length_map, List.length_take]; omega), htake, List.map_map]
          apply List.map_congr_left
          intro p _
          simp [swap_u16_host16]

theorem ja3_extensions_eq (s : ngx_ssl_connection_t) (pool : ngx_pool_t) (ja3 : ngx_ssl_ja3_t)
    (hl : ext_len_ok s.client_extensions_size s.client_extensions) (hp : pool.ok) :
    ∃ pool' sz a, ja3_extensions s pool ja3
        = some (true, pool', { ja3 with extensions := a, extensions_sz := sz }) ∧
      pool'.ok ∧ arr_ok sz a ∧ sz = ((raw_extensions s).filter not_greased).length ∧
      arr_list sz a = (raw_extensions s).filter not_greased := by
  obtain ⟨hp1, hp2⟩ := pool_ok_pnalloc pool hp
  unfold ja3_extensions raw_extensions
  cases hext : s.client_extensions with
  | none =>
    refine ⟨pool, 0, none, by simp, hp, by simp [arr_ok], ?_, ?_⟩ <;>
      by_cases h0 : s.client_extensions_size = 0 <;> simp [h0, arr_list]
  | some exts =>
    have hlen : s.client_extensions_size = exts.length := by
      simpa [ext_len_ok, hext] using hl
    by_cases h0 : s.client_extensions_size = 0
    · exact ⟨pool, 0, none, by simp [h0], hp, by simp [arr_ok], by simp [h0],
        by simp [h0, arr_list]⟩
    · obtain ⟨a, hrun, halen, htake⟩ :=
        ja3_filter_loop_eq (fun i => exts[i]?) id exts (fun i h => by simp [h])
      rw [← hlen] at hrun
      rw [List.map_id] at htake
      have hjle : (exts.filter not_greased).length ≤ a.length := by
        have h1 := List.length_filter_le not_greased exts
        omega
      refine ⟨(ngx_pnalloc pool).2, (exts.filter not_greased).length, some a, ?_, hp2, ?_, ?_,
        ?_⟩
      · simp [h0, hp1, hrun]
      · simpa [arr_ok] using hjle
      · simp [h0]
      · simp [h0, arr_list, htake]

theorem ja3_curves_eq (t : NidTable) (ssl : SSL) (pool : ngx_pool_t) (ja3 : ngx_ssl_ja3_t)
    (hp : pool.ok) :
    ∃ pool' sz a, ja3_curves t true ssl pool ja3
        = some (true, pool', { ja3 with curves := a, curves_sz := sz }) ∧
      pool'.ok ∧ arr_ok sz a ∧
      sz = ((ssl.curves.filter not_greased).map
        (fun v => (ngx_ssl_ja3_nid_to_cid t v : Int))).length ∧
      arr_list sz a = (ssl.curves.filter not_greased).map
        (fun v => (ngx_ssl_ja3_nid_to_cid t v : Int)) := by
  obtain ⟨hp1, hp2⟩ := pool_ok_pnalloc pool hp
  unfold ja3_curves
  by_cases h0 : ssl.curves.length = 0
  · have hc : ssl.curves = [] := List.length_eq_zero.mp h0
    exact ⟨pool, 0, ja3.curves, by simp [h0], hp, by simp [arr_ok], by simp [hc],
      by simp [hc, arr_list]⟩
  · obtain ⟨a, hrun, halen, htake⟩ :=
      ja3_filter_loop_eq (fun i => ssl.curves[i]?)
        (fun v => (ngx_ssl_ja3_nid_to_cid t v : Int)) ssl.curves (fun i h => by simp [h])
    have hjle : (ssl.curves.filter not_greased).length ≤ a.length := by
      have h1 := List.length_filter_le not_greased ssl.curves
      omega
    refine ⟨(ngx_pnalloc pool).2, (ssl.curves.filter not_greased).length, some a, ?_, hp2, ?_,
      ?_, ?_⟩
    · simp [h0, hp1, hrun]
    · simpa [arr_ok] using hjle
    · simp
    · simp [arr_list, htake]

theorem ja3_point_formats_eq (ssl : SSL) (pool : ngx_pool_t) (ja3 : ngx_ssl_ja3_t)
    (hl : len_ok ssl.ec_point_formats_len ssl.ec_point_formats) (hp : pool.ok) :
    ∃ pool' a, ja3_point_formats ssl pool ja3
        = some (true, pool',
          { ja3 with point_formats := a, point_formats_sz := (raw_point_formats ssl).length }) ∧
      pool'.ok ∧ arr_ok (raw_point_formats ssl).length a ∧
      arr_list (raw_point_formats ssl).length a
        = (raw_point_formats ssl).map (fun b => ((b.val : Nat) : Int)) := by
  obtain ⟨hp1, hp2⟩ := pool_ok_pnalloc pool hp
  unfold ja3_point_formats raw_point_formats
  cases hpf : ssl.ec_point_formats with
  | none =>
    have h0 : ssl.ec_point_formats_len = 0 := by simpa [len_ok, hpf] using hl
    exact ⟨pool, ja3.point_formats, by simp [h0], hp, by simp [arr_ok], by simp [arr_list]⟩
  | some pf =>
    have hlen : ssl.ec_point_formats_len = pf.length := by simpa [len_ok, hpf] using hl
    by_cases h0 : pf.length = 0
    · have hc : pf = [] := List.length_eq_zero.mp h0
      exact ⟨pool, ja3.point_formats, by simp [hlen, hc], hp, by simp [arr_ok, hc],
        by simp [hc, arr_list]⟩
    · exact ⟨(ngx_pnalloc pool).2, some (pf.map (fun b => ((b.val : Nat) : Int))),
        by simp [hlen, h0, hp1], hp2, by simp [arr_ok], by simp [arr_list]⟩

/-- The builder on a completed handshake, all allocations succeeding: it
returns `NGX_OK` and a record whose four lists are the normalized raw lists. -/
theorem ngx_ssl_ja3_eq (t : NidTable) (le : Bool) (c : ngx_connection_t)
    (s : ngx_ssl_connection_t) (ssl : SSL) (pool : ngx_pool_t) (ja3 : ngx_ssl_ja3_t)
    (hd : handshake_done c s ssl) (hp : pool.ok) :
    ∃ r, ngx_ssl_ja3 t le true c pool ja3 = some (NGX_OK, r) ∧ r.version = ssl.version ∧ r.wf ∧
      (r.ciphers_sz
          = (((raw_ciphers ssl).filter (fun p => not_greased (host16 le p))).map be16).length ∧
        arr_list r.ciphers_sz r.ciphers
          = ((raw_ciphers ssl).filter (fun p => not_greased (host16 le p))).map be16) ∧
      (r.extensions_sz = ((raw_extensions s).filter not_greased).length ∧
        arr_list r.extensions_sz r.extensions = (raw_extensions s).filter not_greased) ∧
      (r.curves_sz = ((ssl.curves.filter not_greased).map
          (fun v => (ngx_ssl_ja3_nid_to_cid t v : Int))).length ∧
        arr_list r.curves_sz r.curves = (ssl.curves.filter not_greased).map
          (fun v => (ngx_ssl_ja3_nid_to_cid t v : Int))) ∧
      (r.point_formats_sz = (raw_point_formats ssl).length ∧
        arr_list r.point_formats_sz r.point_formats
          = (raw_point_formats ssl).map (fun b => ((b.val : Nat) : Int))) := by
  obtain ⟨hc, hh, hs, hconn, hext, hcl, hpf⟩ := hd
  obtain ⟨p1, sz1, a1, e1, hp1, ok1, hsz1, hl1⟩ :=
    ja3_cipher_suites_eq le ssl pool { ja3 with version := ssl.version } hcl hp
  obtain ⟨p2, sz2, a2, e2, hp2, ok2, hsz2, hl2⟩ :=
    ja3_extensions_eq s p1
      { ({ ja3 with version := ssl.version } : ngx_ssl_ja3_t) with
        ciphers := a1, ciphers_sz := sz1 } hext hp1
  obtain ⟨p3, sz3, a3, e3, hp3, ok3, hsz3, hl3⟩ :=
    ja3_curves_eq t ssl p2
      { ({ ({ ja3 with version := ssl.version } : ngx_ssl_ja3_t) with
          ciphers := a1, ciphers_sz := sz1 } : ngx_ssl_ja3_t) with
        extensions := a2, extensions_sz := sz2 } hp2
  obtain ⟨p4, a4, e4, hp4, ok4, hl4⟩ :=
    ja3_point_formats_eq ssl p3
      { ({ ({ ({ ja3 with version := ssl.version } : ngx_ssl_ja3_t) with
            ciphers := a1, ciphers_sz := sz1 } : ngx_ssl_ja3_t) with
          extensions := a2, extensions_sz := sz2 } : ngx_ssl_ja3_t) with
        curves := a3, curves_sz := sz3 } hpf hp3
  refine ⟨⟨ssl.version, sz1, a1, sz2, a2, sz3, a3, (raw_point_formats ssl).length, a4⟩,
    ?_, ?_⟩
  · simp only [ngx_ssl_ja3, ngx_ssl_get_session, hc, hh, hs, hconn, Bool.true_eq_false, if_false, e1, ja3_then, e2,
      e3, e4]
  · exact ⟨rfl, ⟨ok1, ok2, ok3, ok4⟩, ⟨hsz1, hl1⟩, ⟨hsz2, hl2⟩, ⟨hsz3, hl3⟩, ⟨rfl, hl4⟩⟩

theorem example_handshake_done : handshake_done example_conn example_ssl_conn example_ssl := by
  decide

theorem good_pool_ok : good_pool.ok := by
  decide

/-! ## The normalized lists -/

theorem filter_be16_eq (le : Bool) (l : List (Byte × Byte)) :
    (l.filter (fun p => not_greased (host16 le p))).map be16
      = (l.map be16).filter (fun x => decide (x ∉ GREASE)) := by
  rw [List.filter_map]
  congr 1
  apply List.filter_congr
  intro p _
  show not_greased (host16 le p) = decide (be16 p ∉ GREASE)
  rw [not_greased_host16, not_greased_iff]

theorem filter_not_greased_eq (l : List Int) :
    l.filter not_greased = l.filter (fun x => decide (x ∉ GREASE)) := by
  apply List.filter_congr
  intro x _
  exact not_greased_iff x

/-- C5: on a completed handshake with all allocations succeeding, for every
raw cipher list (wire bytes `raw`, two per cipher suite) the ciphers stored
by `ngx_ssl_ja3` are the raw values that are not GREASE, in their original
order, and `ciphers_sz` is the number of survivors; the raw list
`[0x0a0a, 4865, 0x1a1a]` is stored as `[4865]` and serialized as the field
`4865`. -/
theorem ngx_ssl_ja3_ciphers_filtered :
    (∀ (t : NidTable) (le : Bool) (c : ngx_connection_t) (s : ngx_ssl_connection_t) (ssl : SSL)
        (pool : ngx_pool_t) (ja3 : ngx_ssl_ja3_t) (raw : List Byte),
      handshake_done c s ssl → pool.ok → ssl.raw_cipherlist = some raw →
      ∃ r, ngx_ssl_ja3 t le true c pool ja3 = some (NGX_OK, r) ∧
        arr_list r.ciphers_sz r.ciphers
          = ((wire_pairs raw).map be16).filter (fun x => decide (x ∉ GREASE)) ∧
        r.ciphers_sz
          = (((wire_pairs raw).map be16).filter (fun x => decide (x ∉ GREASE))).length) ∧
    ((wire_pairs [0x0a, 0x0a, 0x13, 0x01, 0x1a, 0x1a]).map be16 = [0x0a0a, 4865, 0x1a1a] ∧
      ∀ le,
        (ngx_ssl_ja3 openssl_nids le true example_conn good_pool blank_record).map
          (fun x => (x.1, arr_list x.2.ciphers_sz x.2.ciphers)) = some (NGX_OK, [4865]) ∧
        (ngx_ssl_ja3 openssl_nids le true example_conn good_pool blank_record).bind
          (fun x => (ngx_ssl_ja3_fp (some good_pool) (some x.2) (some blank_str)).bind
            (fun o => o.bind ngx_str_t.value)) = some "771,4865,0-23,23-24-0,0-1") := by
  refine ⟨?_, by decide, ?_⟩
  · intro t le c s ssl pool ja3 raw hd hp hraw
    obtain ⟨r, hr, _, _, ⟨hsz, hl⟩, _⟩ := ngx_ssl_ja3_eq t le c s ssl pool ja3 hd hp
    simp only [raw_ciphers, hraw, Option.getD_some, filter_be16_eq] at hsz hl
    exact ⟨r, hr, hl, hsz⟩
  · intro le
    cases le <;> exact ⟨by decide, by decide⟩

/-- Witness of C5: the general statement at the example connection. -/
theorem ngx_ssl_ja3_ciphers_filtered_witness :
    handshake_done example_conn example_ssl_conn example_ssl ∧ good_pool.ok ∧
    ∃ r, ngx_ssl_ja3 openssl_nids true true example_conn good_pool blank_record
        = some (NGX_OK, r) ∧
      arr_list r.ciphers_sz r.ciphers
        = ((wire_pairs [0x0a, 0x0a, 0x13, 0x01, 0x1a, 0x1a]).map be16).filter
            (fun x => decide (x ∉ GREASE)) ∧
      r.ciphers_sz
        = (((wire_pairs [0x0a, 0x0a, 0x13, 0x01, 0x1a, 0x1a]).map be16).filter
            (fun x => decide (x ∉ GREASE))).length :=
  ⟨example_handshake_done, good_pool_ok,
    ngx_ssl_ja3_ciphers_filtered.1 openssl_nids true example_conn example_ssl_conn example_ssl
      good_pool blank_record _ example_handshake_done good_pool_ok rfl⟩

/-- C6: on a completed handshake with all allocations succeeding, the curves
stored by `ngx_ssl_ja3` are the raw identifiers with every GREASE value
dropped and each remaining one replaced, in order, by
`ngx_ssl_ja3_nid_to_cid` of it; every stored value lies in 0..29. -/
theorem ngx_ssl_ja3_curves_mapped (t : NidTable) (le : Bool) (c : ngx_connection_t)
    (s : ngx_ssl_connection_t) (ssl : SSL) (pool : ngx_pool_t) (ja3 : ngx_ssl_ja3_t)
    (hd : handshake_done c s ssl) (hp : pool.ok) :
    ∃ r, ngx_ssl_ja3 t le true c pool ja3 = some (NGX_OK, r) ∧
      arr_list r.curves_sz r.curves
        = (ssl.curves.filter (fun x => decide (x ∉ GREASE))).map
            (fun v => (ngx_ssl_ja3_nid_to_cid t v : Int)) ∧
      r.curves_sz = (ssl.curves.filter (fun x => decide (x ∉ GREASE))).length ∧
      ∀ v ∈ arr_list r.curves_sz r.curves, 0 ≤ v ∧ v ≤ 29 := by
  obtain ⟨r, hr, _, _, _, _, ⟨hsz, hl⟩, _⟩ := ngx_ssl_ja3_eq t le c s ssl pool ja3 hd hp
  rw [filter_not_greased_eq] at hsz hl
  refine ⟨r, hr, hl, by simpa using hsz, ?_⟩
  intro v hv
  rw [hl, List.mem_map] at hv
  obtain ⟨x, _, rfl⟩ := hv
  have := nid_to_cid_le t x
  omega

/-- Witness of C6: raw curves secp256r1, a GREASE value, secp384r1, unknown. -/
theorem ngx_ssl_ja3_curves_mapped_witness :
    handshake_done example_conn example_ssl_conn example_ssl ∧ good_pool.ok ∧
    (example_ssl.curves.filter (fun x => decide (x ∉ GREASE))).map
        (fun v => (ngx_ssl_ja3_nid_to_cid openssl_nids v : Int)) = [23, 24, 0] ∧
    ∃ r, ngx_ssl_ja3 openssl_nids true true example_conn good_pool blank_record
        = some (NGX_OK, r) ∧
      arr_list r.curves_sz r.curves
        = (example_ssl.curves.filter (fun x => decide (x ∉ GREASE))).map
            (fun v => (ngx_ssl_ja3_nid_to_cid openssl_nids v : Int)) ∧
      r.curves_sz = (example_ssl.curves.filter (fun x => decide (x ∉ GREASE))).length ∧
      ∀ v ∈ arr_list r.curves_sz r.curves, 0 ≤ v ∧ v ≤ 29 :=
  ⟨example_handshake_done, good_pool_ok, by decide,
    ngx_ssl_ja3_curves_mapped openssl_nids true example_conn example_ssl_conn example_ssl
      good_pool blank_record example_handshake_done good_pool_ok⟩

/-- C7: on a completed handshake with all allocations succeeding, the
extensions stored by `ngx_ssl_ja3` are the raw identifiers with exactly the
GREASE values removed, a subsequence of the raw list; when the raw list is
unavailable (size 0 or no array) the builder still returns `NGX_OK`, with an
empty list, `extensions_sz = 0` and a null array. -/
theorem ngx_ssl_ja3_extensions_filtered (t : NidTable) (le : Bool) (c : ngx_connection_t)
    (s : ngx_ssl_connection_t) (ssl : SSL) (pool : ngx_pool_t) (ja3 : ngx_ssl_ja3_t)
    (hd : handshake_done c s ssl) (hp : pool.ok) :
    ∃ r, ngx_ssl_ja3 t le true c pool ja3 = some (NGX_OK, r) ∧
      (∀ raw, s.client_extensions = some raw →
        arr_list r.extensions_sz r.extensions = raw.filter (fun x => decide (x ∉ GREASE)) ∧
        r.extensions_sz = (raw.filter (fun x => decide (x ∉ GREASE))).length ∧
        (arr_list r.extensions_sz r.extensions).Sublist raw) ∧
      ((s.client_extensions_size = 0 ∨ s.client_extensions = none) →
        arr_list r.extensions_sz r.extensions = [] ∧ r.extensions_sz = 0) := by
  obtain ⟨r, hr, _, _, _, ⟨hsz, hl⟩, _⟩ := ngx_ssl_ja3_eq t le c s ssl pool ja3 hd hp
  rw [filter_not_greased_eq] at hsz hl
  refine ⟨r, hr, ?_, ?_⟩
  · intro raw hraw
    have hlen : s.client_extensions_size = raw.length := by
      simpa [ext_len_ok, hraw] using hd.2.2.2.2.1
    have hre : raw_extensions s = raw := by
      unfold raw_extensions
      by_cases h0 : s.client_extensions_size = 0
      · have : raw = [] := List.length_eq_zero.mp (by omega)
        simp [h0, this]
      · simp [h0, hraw]
    rw [hre] at hsz hl
    exact ⟨hl, hsz, by rw [hl]; exact List.filter_sublist raw⟩
  · intro hun
    have hre : raw_extensions s = [] := by
      unfold raw_extensions
      rcases hun with h0 | hn
      · simp [h0]
      · simp [hn]
    rw [hre] at hsz hl
    exact ⟨hl, hsz⟩

/-- Witness of C7: raw extensions 0, a GREASE value, 23. -/
theorem ngx_ssl_ja3_extensions_filtered_witness :
    handshake_done example_conn example_ssl_conn example_ssl ∧ good_pool.ok ∧
    ([0, 0x0a0a, 23] : List Int).filter (fun x => decide (x ∉ GREASE)) = [0, 23] ∧
    ∃ r, ngx_ssl_ja3 openssl_nids true true example_conn good_pool blank_record
        = some (NGX_OK, r) ∧
      (∀ raw, example_ssl_conn.client_extensions = some raw →
        arr_list r.extensions_sz r.extensions = raw.filter (fun x => decide (x ∉ GREASE)) ∧
        r.extensions_sz = (raw.filter (fun x => decide (x ∉ GREASE))).length ∧
        (arr_list r.extensions_sz r.extensions).Sublist raw) ∧
      ((example_ssl_conn.client_extensions_size = 0 ∨ example_ssl_conn.client_extensions = none) →
        arr_list r.extensions_sz r.extensions = [] ∧ r.extensions_sz = 0) :=
  ⟨example_handshake_done, good_pool_ok, by decide,
    ngx_ssl_ja3_extensions_filtered openssl_nids true example_conn example_ssl_conn
      example_ssl good_pool blank_record example_handshake_done good_pool_ok⟩

/-- C8: on a completed handshake with all allocations succeeding, the point
formats stored by `ngx_ssl_ja3` equal the raw list element for element, in
the same order and with the same count. -/
theorem ngx_ssl_ja3_point_formats_copied (t : NidTable) (le : Bool) (c : ngx_connection_t)
    (s : ngx_ssl_connection_t) (ssl : SSL) (pool : ngx_pool_t) (ja3 : ngx_ssl_ja3_t)
    (raw : List Byte) (hd : handshake_done c s ssl) (hp : pool.ok)
    (hraw : ssl.ec_point_formats = some raw) :
    ∃ r, ngx_ssl_ja3 t le true c pool ja3 = some (NGX_OK, r) ∧
      arr_list r.point_formats_sz r.point_formats = raw.map (fun b => ((b.val : Nat) : Int)) ∧
      r.point_formats_sz = raw.length := by
  obtain ⟨r, hr, _, _, _, _, _, ⟨hsz, hl⟩⟩ := ngx_ssl_ja3_eq t le c s ssl pool ja3 hd hp
  simp only [raw_point_formats, hraw, Option.getD_some] at hsz hl
  exact ⟨r, hr, hl, hsz⟩

/-- Witness of C8: raw point formats 0 and 1. -/
theorem ngx_ssl_ja3_point_formats_copied_witness :
    handshake_done example_conn example_ssl_conn example_ssl ∧ good_pool.ok ∧
    ∃ r, ngx_ssl_ja3 openssl_nids true true example_conn good_pool blank_record
        = some (NGX_OK, r) ∧
      arr_list r.point_formats_sz r.point_formats
        = ([0, 1] : List Byte).map (fun b => ((b.val : Nat) : Int)) ∧
      r.point_formats_sz = ([0, 1] : List Byte).length :=
  ⟨example_handshake_done, good_pool_ok,
    ngx_ssl_ja3_point_formats_copied openssl_nids true example_conn example_ssl_conn
      example_ssl good_pool blank_record [0, 1] example_handshake_done good_pool_ok rfl⟩

/-- C9: on a completed handshake with all allocations succeeding, on a
little-endian host (`NGX_HAVE_LITTLE_ENDIAN` set) as on a big-endian one
(unset), the stored ciphers are the network-order values `256*b0 + b1` of the
wire pairs that pass the filter, in order. -/
theorem ngx_ssl_ja3_ciphers_network_order (t : NidTable) (le : Bool) (c : ngx_connection_t)
    (s : ngx_ssl_connection_t) (ssl : SSL) (pool : ngx_pool_t) (ja3 : ngx_ssl_ja3_t)
    (raw : List Byte) (hd : handshake_done c s ssl) (hp : pool.ok)
    (hraw : ssl.raw_cipherlist = some raw) :
    ∃ r, ngx_ssl_ja3 t le true c pool ja3 = some (NGX_OK, r) ∧
      arr_list r.ciphers_sz r.ciphers
        = ((wire_pairs raw).filter
            (fun p => decide (ngx_ssl_ja3_is_ext_greased (host16 le p) = 0))).map
          (fun p => ((256 * p.1.val + p.2.val : Nat) : Int)) ∧
      (∀ x ∈ arr_list r.ciphers_sz r.ciphers,
        ∃ p ∈ wire_pairs raw, x = ((256 * p.1.val + p.2.val : Nat) : Int)) := by
  obtain ⟨r, hr, _, _, ⟨hsz, hl⟩, _⟩ := ngx_ssl_ja3_eq t le c s ssl pool ja3 hd hp
  simp only [raw_ciphers, hraw, Option.getD_some] at hl
  refine ⟨r, hr, hl, ?_⟩
  intro x hx
  rw [hl, List.mem_map] at hx
  obtain ⟨p, hp', rfl⟩ := hx
  exact ⟨p, (List.mem_filter.mp hp').1, rfl⟩

/-- Witness of C9: the wire bytes `0a 0a 13 01 1a 1a` on a little-endian and on
a big-endian host. -/
theorem ngx_ssl_ja3_ciphers_network_order_witness :
    handshake_done example_conn example_ssl_conn example_ssl ∧ good_pool.ok ∧
    (∀ le, (ngx_ssl_ja3 openssl_nids le true example_conn good_pool blank_record).map
      (fun x => arr_list x.2.ciphers_sz x.2.ciphers) = some [256 * 0x13 + 0x01]) ∧
    ∃ r, ngx_ssl_ja3 openssl_nids true true example_conn good_pool blank_record
        = some (NGX_OK, r) ∧
      arr_list r.ciphers_sz r.ciphers
        = ((wire_pairs [0x0a, 0x0a, 0x13, 0x01, 0x1a, 0x1a]).filter
            (fun p => decide (ngx_ssl_ja3_is_ext_greased (host16 true p) = 0))).map
          (fun p => ((256 * p.1.val + p.2.val : Nat) : Int)) ∧
      (∀ x ∈ arr_list r.ciphers_sz r.ciphers,
        ∃ p ∈ wire_pairs [0x0a, 0x0a, 0x13, 0x01, 0x1a, 0x1a],
          x = ((256 * p.1.val + p.2.val : Nat) : Int)) :=
  ⟨example_handshake_done, good_pool_ok, by decide,
    ngx_ssl_ja3_ciphers_network_order openssl_nids true example_conn example_ssl_conn
      example_ssl good_pool blank_record _ example_handshake_done good_pool_ok rfl⟩

/-! ## Precondition failures of the builder -/

theorem ngx_ssl_ja3_empty_lists (t : NidTable) (le malloc_ok : Bool) (c : ngx_connection_t)
    (s : ngx_ssl_connection_t) (ssl : SSL) (pool : ngx_pool_t) (ja3 : ngx_ssl_ja3_t)
    (hd : handshake_done c s ssl) (h1 : raw_ciphers ssl = []) (h2 : raw_extensions s = [])
    (h3 : ssl.curves = []) (h4 : raw_point_formats ssl = []) :
    ∃ r, ngx_ssl_ja3 t le malloc_ok c pool ja3 = some (NGX_OK, r) ∧ r.version = ssl.version ∧
      r.ciphers_sz = 0 ∧ r.extensions_sz = 0 ∧ r.curves_sz = 0 ∧ r.point_formats_sz = 0 := by
  obtain ⟨hc, hh, hs, hconn, hext, hcl, hpf⟩ := hd
  have e1 : ∀ r0 : ngx_ssl_ja3_t, ja3_cipher_suites le ssl pool r0
      = some (true, pool, { r0 with ciphers := none, ciphers_sz := 0 }) := by
    intro r0
    unfold ja3_cipher_suites
    unfold raw_ciphers at h1
    cases hraw : ssl.raw_cipherlist with
    | none =>
      have h0 : ssl.raw_cipherlist_len = 0 := by simpa [len_ok, hraw] using hcl
      simp [h0]
    | some raw =>
      have hlen : ssl.raw_cipherlist_len = raw.length := by simpa [len_ok, hraw] using hcl
      have h0 : raw.length / 2 = 0 := by
        rw [← wire_pairs_length]
        simp [hraw] at h1
        simp [h1]
      simp [hlen, h0]
  have e2 : ∀ r0 : ngx_ssl_ja3_t, ja3_extensions s pool r0
      = some (true, pool, { r0 with extensions := none, extensions_sz := 0 }) := by
    intro r0
    unfold ja3_extensions
    unfold raw_extensions at h2
    cases hraw : s.client_extensions with
    | none => simp
    | some raw =>
      have hlen : s.client_extensions_size = raw.length := by
        simpa [ext_len_ok, hraw] using hext
      have h0 : s.client_extensions_size = 0 := by
        by_cases h0 : s.client_extensions_size = 0
        · exact h0
        · simp [h0, hraw] at h2
          simp [hlen, h2]
      simp [h0]
  have e3 : ∀ r0 : ngx_ssl_ja3_t, ja3_curves t malloc_ok ssl pool r0
      = some (true, pool, { r0 with curves_sz := 0 }) := by
    intro r0
    simp [ja3_curves, h3]
  have e4 : ∀ r0 : ngx_ssl_ja3_t, ja3_point_formats ssl pool r0
      = some (true, pool, { r0 with point_formats_sz := 0 }) := by
    intro r0
    unfold ja3_point_formats
    unfold raw_point_formats at h4
    cases hraw : ssl.ec_point_formats with
    | none =>
      have h0 : ssl.ec_point_formats_len = 0 := by simpa [len_ok, hraw] using hpf
      simp [h0]
    | some raw =>
      have hlen : ssl.ec_point_formats_len = raw.length := by simpa [len_ok, hraw] using hpf
      simp [hraw] at h4
      simp [hlen, h4]
  refine ⟨⟨ssl.version, 0, none, 0, none, 0, ja3.curves, 0, ja3.point_formats⟩, ?_, rfl, rfl, rfl,
    rfl, rfl⟩
  simp only [ngx_ssl_ja3, ngx_ssl_get_session, hc, hh, hs, hconn, Bool.true_eq_false, if_false, e1, ja3_then, e2, e3,
    e4]

/-- The guards of `ngx_ssl_ja3` that hold: a connection without TLS context,
one whose handshake is not complete, and one whose `SSL` object holds no
session are declined with the record as the caller passed it. -/
theorem ngx_ssl_ja3_declined (t : NidTable) (le malloc_ok : Bool)
    (c : ngx_connection_t) (pool : ngx_pool_t) (ja3 : ngx_ssl_ja3_t)
    (h : c.ssl = none ∨ ∃ s, c.ssl = some s ∧
      (s.handshaked = false ∨ (s.session = false ∧ s.connection ≠ none))) :
    ngx_ssl_ja3 t le malloc_ok c pool ja3 = some (NGX_DECLINED, ja3) := by
  rcases h with h | ⟨s, hs, h⟩
  · simp [ngx_ssl_ja3, h]
  · rcases h with h | ⟨h, hcn⟩
    · simp [ngx_ssl_ja3, hs, h]
    · obtain ⟨ssl, hssl⟩ : ∃ ssl, s.connection = some ssl := by
        cases hc : s.connection with
        | none => exact absurd hc hcn
        | some ssl => exact ⟨ssl, rfl⟩
      cases hh : s.handshaked <;> simp [ngx_ssl_ja3, ngx_ssl_get_session, hs, h, hh, hssl]

/-- A handshaked connection whose `connection` pointer is null makes
`ngx_ssl_ja3` fault at line 306, whatever the session flag, before the test
of line 312. -/
theorem ngx_ssl_ja3_null_connection (t : NidTable) (le malloc_ok : Bool)
    (c : ngx_connection_t) (s : ngx_ssl_connection_t) (pool : ngx_pool_t) (ja3 : ngx_ssl_ja3_t)
    (hc : c.ssl = some s) (hh : s.handshaked = true) (hn : s.connection = none) :
    ngx_ssl_ja3 t le malloc_ok c pool ja3 = none := by
  simp [ngx_ssl_ja3, ngx_ssl_get_session, hc, hh, hn]

/-- C11 (fails on the code): for a connection with TLS context, marked as
handshaked, whose underlying `SSL` object is null, `ngx_ssl_ja3` does not
return `NGX_DECLINED`: `ngx_ssl_get_session(c)` at line 306 reads through the
null `connection` before line 312 tests it, a memory fault.  The other three
guards decline with the record untouched, and a completed handshake with four
empty lists gets `NGX_OK`, which differs from `NGX_DECLINED`. -/
theorem ngx_ssl_ja3_null_ssl_object_faults :
    null_ssl_conn.handshaked = true ∧ null_ssl_conn.connection = none ∧
    ngx_ssl_get_session null_ssl_conn = none ∧
    ngx_ssl_ja3 openssl_nids true true null_ssl_object_conn good_pool example_2 = none ∧
    ngx_ssl_ja3 openssl_nids true true ⟨some { null_ssl_conn with session := true }⟩ good_pool
      example_2 = none ∧
    ngx_ssl_ja3 openssl_nids true true plain_conn good_pool example_2
      = some (NGX_DECLINED, example_2) ∧
    ngx_ssl_ja3 openssl_nids true true ⟨some unhandshaked_ssl_conn⟩ good_pool example_2
      = some (NGX_DECLINED, example_2) ∧
    ngx_ssl_ja3 openssl_nids true true ⟨some sessionless_ssl_conn⟩ good_pool example_2
      = some (NGX_DECLINED, example_2) ∧
    (ngx_ssl_ja3 openssl_nids true true empty_conn good_pool blank_record).map Prod.fst
      = some NGX_OK ∧
    NGX_DECLINED ≠ NGX_OK := by
  decide

/-! ## More on the serializer -/

/-- When `ngx_pnalloc` yields `NULL`, `ngx_ssl_ja3_fp` does not return: after
the length pass it stores through the null pointer. -/
theorem fp_alloc_failure (pool : ngx_pool_t) (r : ngx_ssl_ja3_t) (out : ngx_str_t)
    (hwf : r.wf) (hp : (ngx_pnalloc pool).1 = false) :
    fp_length_pass r = some (fp_text r).length ∧
    ngx_ssl_ja3_fp (some pool) (some r) (some out) = none := by
  refine ⟨fp_length_pass_eq r hwf, ?_⟩
  simp [ngx_ssl_ja3_fp, fp_body, fp_length_pass_eq r hwf, hp]

/-- C13 (fails on the code): with version 769, four empty lists and a pool
whose allocation yields `NULL`, the length pass computes 7, `out->data`
becomes null, and the write pass stores through the null pointer: the call
faults instead of reporting the failure. -/
theorem ngx_ssl_ja3_fp_alloc_failure_faults :
    (ngx_pnalloc failing_pool).1 = false ∧ fp_length_pass example_3 = some 7 ∧
    ngx_ssl_ja3_fp (some failing_pool) (some example_3) (some blank_str) = none := by
  decide

/-- C15: for version 769 and four empty lists `ngx_ssl_ja3_fp` produces the
seven-character string `769,,,,`: the length pass gives 7, the final
`out->len` is 7, and the bytes are `769,,,,`; the same holds when the four
arrays are null pointers. -/
theorem ngx_ssl_ja3_fp_all_empty :
    fp_length_pass example_3 = some 7 ∧
    (ngx_ssl_ja3_fp (some good_pool) (some example_3) (some blank_str)).bind
      (fun o => o.map ngx_str_t.len) = some 7 ∧
    (ngx_ssl_ja3_fp (some good_pool) (some example_3) (some blank_str)).bind
      (fun o => o.bind ngx_str_t.value) = some "769,,,," ∧
    "769,,,,".length = 7 ∧
    (ngx_ssl_ja3_fp (some good_pool) (some { blank_record with version := 769 })
      (some blank_str)).bind (fun o => o.bind ngx_str_t.value) = some "769,,,," := by
  decide

/-- C17: for every non-negative `int` `n`, `ngx_ssj_ja3_num_digits(n)` is the
number of characters of the plain decimal representation of `n`; it is 1 for
every single-digit value, and for 9 that 1 is the count of the division
loop. -/
theorem ngx_ssj_ja3_num_digits_decimal (n : Int) (h : 0 ≤ n) :
    ngx_ssj_ja3_num_digits n = (toString n).length ∧
    (n ≤ 9 → ngx_ssj_ja3_num_digits n = 1) ∧
    (¬ ((9 : Int) < 9) ∧ (num_digits_loop (9 : Int).toNat 9 0).toNat = 1) := by
  refine ⟨?_, ?_, by decide⟩
  · show _ = (toString n).data.length
    rw [toString_int_data n h, num_digits_eq_length n h]
  · intro h9
    obtain ⟨m, rfl⟩ : ∃ m : Nat, n = (m : Int) := ⟨n.toNat, by omega⟩
    have hm : m ≤ 9 := by omega
    interval_cases m <;> decide

/-- Witness of C17: 65281 has five digits, 9 has one. -/
theorem ngx_ssj_ja3_num_digits_decimal_witness :
    (0 : Int) ≤ 65281 ∧ toString (65281 : Int) = "65281" ∧
    ngx_ssj_ja3_num_digits 65281 = 5 ∧ ngx_ssj_ja3_num_digits 9 = 1 ∧
    ngx_ssj_ja3_num_digits 65281 = (toString (65281 : Int)).length :=
  ⟨by decide, by decide, by decide, by decide,
    (ngx_ssj_ja3_num_digits_decimal 65281 (by decide)).1⟩

/-! ## Allocation failures of the builder -/

theorem grease_filter_eq (xs : List Int) :
    grease_filter xs = some (xs.filter (fun x => decide (x ∉ GREASE))) := by
  obtain ⟨a, hrun, _, htake⟩ :=
    ja3_filter_loop_eq (fun i => xs[i]?) id xs (fun i h => by simp [h])
  rw [List.map_id] at htake
  rw [filter_not_greased_eq] at hrun htake
  simp only [grease_filter, hrun, Option.map_some', htake]

/-- C16: the GREASE filtering step of `ngx_ssl_ja3` is idempotent: on a list
without GREASE value it returns the list unchanged (same elements, order and
count), and filtering a filtered list changes nothing. -/
theorem grease_filter_idempotent :
    (∀ xs : List Int, (∀ x ∈ xs, ngx_ssl_ja3_is_ext_greased x = 0) →
      grease_filter xs = some xs) ∧
    (∀ xs : List Int, ∃ ys, grease_filter xs = some ys ∧ grease_filter ys = some ys ∧
      (grease_filter xs).bind grease_filter = grease_filter xs) := by
  refine ⟨?_, ?_⟩
  · intro xs h
    rw [grease_filter_eq, ← filter_not_greased_eq]
    congr 1
    apply List.filter_eq_self.mpr
    intro x hx
    simp [not_greased, h x hx]
  · intro xs
    refine ⟨xs.filter (fun x => decide (x ∉ GREASE)), grease_filter_eq xs, ?_, ?_⟩
    · rw [grease_filter_eq, List.filter_filter]
      simp
    · rw [grease_filter_eq, Option.some_bind, grease_filter_eq, List.filter_filter]
      simp

/-- Witness of C16: a GREASE-free list passes unchanged, and a list with
GREASE values is fixed after one pass. -/
theorem grease_filter_idempotent_witness :
    (∀ x ∈ ([4865, 4866, 49195] : List Int), ngx_ssl_ja3_is_ext_greased x = 0) ∧
    grease_filter [4865, 4866, 49195] = some [4865, 4866, 49195] ∧
    grease_filter [0x0a0a, 4865, 0x1a1a] = some [4865] ∧
    (grease_filter [0x0a0a, 4865, 0x1a1a]).bind grease_filter = some [4865] :=
  ⟨by decide, grease_filter_idempotent.1 [4865, 4866, 49195] (by decide), by decide, by decide⟩

theorem swap_u16_eq (x : Int) (h0 : 0 ≤ x) (h1 : x < 65536) :
    swap_u16 x = 256 * (x % 256) + x / 256 := by
  obtain ⟨m, rfl⟩ : ∃ m : Nat, x = (m : Int) := ⟨x.toNat, by omega⟩
  have hm : m < 65536 := by omega
  have hsplit : m = m % 256 + 256 * (m / 256) := by omega
  have := swap_bytes (m % 256) (m / 256) (by omega) (by omega)
  rw [← hsplit] at this
  simp only [swap_u16, Int.toNat_ofNat, this]
  push_cast
  rfl

theorem greased_swap_u16 (x : Int) (h0 : 0 ≤ x) (h1 : x < 65536) :
    ngx_ssl_ja3_is_ext_greased (swap_u16 x) = ngx_ssl_ja3_is_ext_greased x := by
  have key : swap_u16 x ∈ GREASE ↔ x ∈ GREASE := by
    rw [swap_u16_eq x h0 h1, mem_GREASE_iff, mem_GREASE_iff]
    constructor
    · rintro ⟨k, hk, e⟩; exact ⟨k, hk, by omega⟩
    · rintro ⟨k, hk, e⟩; exact ⟨k, hk, by omega⟩
  simp only [greased_eq, key]

/-- C18: the GREASE predicate does not change when the two bytes of a 16-bit
value are swapped; hence filtering host-order values and then swapping them
(the order of the code on little-endian hosts) gives the same list as
swapping first and filtering afterwards; and no cipher stored by
`ngx_ssl_ja3` is a GREASE value, on either kind of host. -/
theorem greased_byteswap_invariant :
    (∀ x : Int, 0 ≤ x → x < 65536 →
      ngx_ssl_ja3_is_ext_greased (swap_u16 x) = ngx_ssl_ja3_is_ext_greased x) ∧
    (∀ xs : List Int, (∀ x ∈ xs, 0 ≤ x ∧ x < 65536) →
      (grease_filter xs).map (List.map swap_u16) = grease_filter (xs.map swap_u16)) ∧
    (∀ (t : NidTable) (le : Bool) (c : ngx_connection_t) (s : ngx_ssl_connection_t) (ssl : SSL)
        (pool : ngx_pool_t) (ja3 : ngx_ssl_ja3_t), handshake_done c s ssl → pool.ok →
      ∃ r, ngx_ssl_ja3 t le true c pool ja3 = some (NGX_OK, r) ∧
        ∀ x ∈ arr_list r.ciphers_sz r.ciphers, ngx_ssl_ja3_is_ext_greased x = 0) := by
  refine ⟨greased_swap_u16, ?_, ?_⟩
  · intro xs h
    rw [grease_filter_eq, grease_filter_eq, Option.map_some', List.filter_map]
    congr 2
    apply List.filter_congr
    intro x hx
    have := greased_swap_u16 x (h x hx).1 (h x hx).2
    simp only [Function.comp_apply, ← not_greased_iff, not_greased, this]
  · intro t le c s ssl pool ja3 hd hp
    obtain ⟨r, hr, _, _, ⟨_, hl⟩, _⟩ := ngx_ssl_ja3_eq t le c s ssl pool ja3 hd hp
    refine ⟨r, hr, ?_⟩
    intro x hx
    rw [hl, filter_be16_eq, List.mem_filter] at hx
    have hng : x ∉ GREASE := by simpa using hx.2
    simp [greased_eq, hng]

/-- Witness of C18: the value 0x1301 and the GREASE value 0x0a0a, and the
example handshake on a little-endian host. -/
theorem greased_byteswap_invariant_witness :
    swap_u16 0x1301 = 0x0113 ∧ swap_u16 0x0a0a = 0x0a0a ∧
    ngx_ssl_ja3_is_ext_greased (swap_u16 0x1301) = ngx_ssl_ja3_is_ext_greased 0x1301 ∧
    (grease_filter [0x0a0a, 0x0113, 0x1a1a]).map (List.map swap_u16)
      = grease_filter (([0x0a0a, 0x0113, 0x1a1a] : List Int).map swap_u16) ∧
    ∃ r, ngx_ssl_ja3 openssl_nids true true example_conn good_pool blank_record
        = some (NGX_OK, r) ∧
      ∀ x ∈ arr_list r.ciphers_sz r.ciphers, ngx_ssl_ja3_is_ext_greased x = 0 :=
  ⟨by decide, by decide, greased_byteswap_invariant.1 0x1301 (by decide) (by decide),
    greased_byteswap_invariant.2.1 [0x0a0a, 0x0113, 0x1a1a] (by decide),
    greased_byteswap_invariant.2.2 openssl_nids true example_conn example_ssl_conn example_ssl
      good_pool blank_record example_handshake_done good_pool_ok⟩

theorem filter_loop_index_le (rd : Nat → Option Int) (f : Int → Int) (xs : List Int)
    (hrd : ∀ i (h : i < xs.length), rd i = some xs[i]) :
    ∀ k, k ≤ xs.length →
      ∃ j a, (List.range k).foldlM (ja3_filter_step rd f) (0, fresh_array xs.length)
          = some (j, a) ∧ j ≤ k ∧ a.length = xs.length := by
  intro k hk
  obtain ⟨a, hrun, hlen, _⟩ :=
    filter_loop_inv rd f xs (fresh_array xs.length) hrd (by simp [fresh_array]) k hk
  refine ⟨_, a, hrun, ?_, by simpa [fresh_array] using hlen⟩
  have h1 := List.length_filter_le not_greased (xs.take k)
  have h2 : (xs.take k).length = k := by rw [List.length_take]; omega
  omega

/-- C20: in each filtering loop of `ngx_ssl_ja3` (ciphers over the
`raw.length / 2` loaded values, extensions, curves), after any number `k` of
iterations the loop has not faulted, the write index is at most the read
index `k`, and the array still has the raw element count as its length, so
the store of the next iteration lies inside it; at the end the stored count
is at most the raw count. -/
theorem ja3_filter_loops_in_bounds :
    (∀ (le : Bool) (raw : List Byte) (k : Nat), k ≤ raw.length / 2 →
      ∃ j a, (List.range k).foldlM (ja3_filter_step (load_u16 le raw) id)
          (0, fresh_array (raw.length / 2)) = some (j, a) ∧
        j ≤ k ∧ a.length = raw.length / 2) ∧
    (∀ (exts : List Int) (k : Nat), k ≤ exts.length →
      ∃ j a, (List.range k).foldlM (ja3_filter_step (fun i => exts[i]?) id)
          (0, fresh_array exts.length) = some (j, a) ∧
        j ≤ k ∧ a.length = exts.length) ∧
    (∀ (t : NidTable) (curves : List Int) (k : Nat), k ≤ curves.length →
      ∃ j a, (List.range k).foldlM
          (ja3_filter_step (fun i => curves[i]?) (fun v => (ngx_ssl_ja3_nid_to_cid t v : Int)))
          (0, fresh_array curves.length) = some (j, a) ∧
        j ≤ k ∧ a.length = curves.length) ∧
    (∀ (rd : Nat → Option Int) (f : Int → Int) (st : Nat × List Int) (i : Nat) (v : Int),
      rd i = some v → ngx_ssl_ja3_is_ext_greased v = 0 → st.1 < st.2.length →
      ja3_filter_step rd f st i = some (st.1 + 1, st.2.set st.1 (f v))) ∧
    (∀ (rd : Nat → Option Int) (f : Int → Int) (st : Nat × List Int) (i : Nat) (v : Int),
      rd i = some v → ngx_ssl_ja3_is_ext_greased v = 0 → ¬ st.1 < st.2.length →
      ja3_filter_step rd f st i = none) := by
  refine ⟨?_, ?_, ?_, ?_, ?_⟩
  · intro le raw k hk
    have hxs : ((wire_pairs raw).map (host16 le)).length = raw.length / 2 := by
      rw [List.length_map, wire_pairs_length]
    have := filter_loop_index_le (load_u16 le raw) id ((wire_pairs raw).map (host16 le))
      (fun i h => by
        rw [load_u16_eq le raw i (by simpa using h)]
        simp) k (by omega)
    rwa [hxs] at this
  · intro exts k hk
    exact filter_loop_index_le (fun i => exts[i]?) id exts (fun i h => by simp [h]) k hk
  · intro t curves k hk
    exact filter_loop_index_le (fun i => curves[i]?) _ curves (fun i h => by simp [h]) k hk
  · intro rd f st i v hv hg hlt
    simp [ja3_filter_step, hv, hg, arr_store, hlt]
  · intro rd f st i v hv hg hlt
    simp [ja3_filter_step, hv, hg, arr_store, hlt]

/-- Witness of C20: the cipher loop of the example after two and after all
three iterations. -/
theorem ja3_filter_loops_in_bounds_witness :
    (2 : Nat) ≤ ([0x0a, 0x0a, 0x13, 0x01, 0x1a, 0x1a] : List Byte).length / 2 ∧
    (List.range 3).foldlM
        (ja3_filter_step (load_u16 true [0x0a, 0x0a, 0x13, 0x01, 0x1a, 0x1a]) id)
        (0, fresh_array 3) = some (1, [0x0113, 0, 0]) ∧
    ∃ j a, (List.range 2).foldlM
        (ja3_filter_step (load_u16 true [0x0a, 0x0a, 0x13, 0x01, 0x1a, 0x1a]) id)
        (0, fresh_array (([0x0a, 0x0a, 0x13, 0x01, 0x1a, 0x1a] : List Byte).length / 2))
          = some (j, a) ∧
      j ≤ 2 ∧ a.length = ([0x0a, 0x0a, 0x13, 0x01, 0x1a, 0x1a] : List Byte).length / 2 :=
  ⟨by decide, by decide,
    ja3_filter_loops_in_bounds.1 true [0x0a, 0x0a, 0x13, 0x01, 0x1a, 0x1a] 2 (by decide)⟩

/-! ## The characters of the decimal text -/

theorem digitChar_isDigit (k : Nat) (h : k < 10) :
    (Nat.digitChar k).isDigit = true ∧ (Nat.digitChar k).toNat - 48 = k := by
  interval_cases k <;> decide

theorem toDigits_step (n fuel : Nat) (h : n < fuel) (h10 : 10 ≤ n) :
    Nat.toDigitsCore 10 fuel n []
      = Nat.toDigitsCore 10 (fuel - 1) (n / 10) [] ++ [Nat.digitChar (n % 10)] := by
  obtain ⟨g, rfl⟩ : ∃ g, fuel = g + 1 := ⟨fuel - 1, by omega⟩
  have h0 : ¬ n / 10 = 0 := by omega
  simp only [Nat.toDigitsCore, h0, if_false, Nat.add_sub_cancel]
  rw [toDigitsCore_acc]

theorem toDigits_small (n fuel : Nat) (h : n < fuel) (h10 : n < 10) :
    Nat.toDigitsCore 10 fuel n [] = [Nat.digitChar n] := by
  obtain ⟨g, rfl⟩ : ∃ g, fuel = g + 1 := ⟨fuel - 1, by omega⟩
  have h0 : n / 10 = 0 := by omega
  have h1 : n % 10 = n := by omega
  simp [Nat.toDigitsCore, h0, h1]

theorem toDigitsCore_spec (n : Nat) : ∀ fuel, n < fuel →
    (∀ c ∈ Nat.toDigitsCore 10 fuel n [], c.isDigit = true) ∧
    Nat.toDigitsCore 10 fuel n [] ≠ [] ∧
    decimal_value (Nat.toDigitsCore 10 fuel n []) = n := by
  induction n using Nat.strong_induction_on with
  | _ n ih =>
    intro fuel hf
    by_cases h10 : n < 10
    · rw [toDigits_small n fuel hf h10]
      have := digitChar_isDigit n h10
      refine ⟨by simpa using this.1, by simp, ?_⟩
      simp [decimal_value, this.2]
    · rw [toDigits_step n fuel hf (by omega)]
      obtain ⟨a, _, c⟩ := ih (n / 10) (by omega) (fuel - 1) (by omega)
      have := digitChar_isDigit (n % 10) (by omega)
      refine ⟨?_, by simp, ?_⟩
      · intro ch hch
        rcases List.mem_append.mp hch with h | h
        · exact a ch h
        · simp at h; rw [h]; exact this.1
      · unfold decimal_value at c ⊢
        rw [List.foldl_append, c]
        simp [this.2]
        omega

theorem toDigits_spec (n : Nat) :
    (∀ c ∈ Nat.toDigits 10 n, c.isDigit = true) ∧ Nat.toDigits 10 n ≠ [] ∧
    decimal_value (Nat.toDigits 10 n) = n :=
  toDigitsCore_spec n (n + 1) (Nat.lt_succ_self n)

theorem isDigit_ne_delim (c : Char) (h : c.isDigit = true) : c ≠ ',' ∧ c ≠ '-' := by
  constructor <;> (rintro rfl; revert h; decide)

theorem elem_text_nonneg (v : Int) (h : 0 ≤ v) : elem_text v = Nat.toDigits 10 v.toNat :=
  fmt_take_nonneg v h

theorem field_text_chars (l : List Int) (h : ∀ v ∈ l, 0 ≤ v) :
    (∀ c ∈ field_text l, c.isDigit = true ∨ c = '-') ∧
    (l ≠ [] → ∃ ch, (field_text l).getLast? = some ch ∧ ch.isDigit = true) := by
  induction l using List.reverseRecOn with
  | nil => simp [field_text, dash_join]
  | append_singleton l v ih =>
    have hl : ∀ x ∈ l, 0 ≤ x := fun x hx => h x (List.mem_append_left _ hx)
    have hv : 0 ≤ v := h v (by simp)
    obtain ⟨ih1, _⟩ := ih hl
    obtain ⟨d1, d2, _⟩ := toDigits_spec v.toNat
    rw [field_text_snoc, elem_text_nonneg v hv]
    refine ⟨?_, ?_⟩
    · intro c hc
      simp only [List.mem_append] at hc
      rcases hc with hc | hc | hc
      · exact ih1 c hc
      · by_cases hnil : l = []
        · simp [hnil] at hc
        · simp [hnil] at hc
          exact Or.inr hc
      · exact Or.inl (d1 c hc)
    · intro _
      rw [← List.append_assoc, List.getLast?_append_of_ne_nil _ d2]
      have hne : (Nat.toDigits 10 v.toNat).getLast? ≠ none := by
        simpa [List.getLast?_eq_none_iff] using d2
      obtain ⟨ch, hch⟩ := Option.ne_none_iff_exists'.mp hne
      exact ⟨ch, hch, d1 ch (List.mem_of_getLast?_eq_some hch)⟩

theorem field_text_no_comma (l : List Int) (h : ∀ v ∈ l, 0 ≤ v) : ',' ∉ field_text l := by
  intro hc
  rcases (field_text_chars l h).1 ',' hc with h1 | h1
  · exact absurd h1 (by decide)
  · exact absurd h1 (by decide)

theorem toDigits_no_comma (n : Nat) : ',' ∉ Nat.toDigits 10 n := by
  intro hc
  exact absurd ((toDigits_spec n).1 ',' hc) (by decide)

theorem fp_text_split (r : ngx_ssl_ja3_t) (h : r.nonneg) :
    fp_text r = Nat.toDigits 10 r.version.toNat ++ [','] ++
      field_text (arr_list r.ciphers_sz r.ciphers) ++ [','] ++
      field_text (arr_list r.extensions_sz r.extensions) ++ [','] ++
      field_text (arr_list r.curves_sz r.curves) ++ [','] ++
      field_text (arr_list r.point_formats_sz r.point_formats) := by
  rw [fp_text, version_text_nonneg r.version h.1, toString_int_data r.version h.1]

theorem fp_value_eq (pool : ngx_pool_t) (r : ngx_ssl_ja3_t) (out : ngx_str_t) (hwf : r.wf)
    (hp : (ngx_pnalloc pool).1 = true) :
    (ngx_ssl_ja3_fp (some pool) (some r) (some out)).bind (fun o => o.bind ngx_str_t.value)
      = some (String.mk (fp_text r)) := by
  rw [fp_eq pool r out hwf hp]
  simp only [Option.some_bind, ngx_str_t.value, bytes_of_text, Option.map_some']

/-- C14: for every record whose arrays hold the announced elements and whose
values are non-negative, when the pool returns a block, the string produced
by `ngx_ssl_ja3_fp` contains exactly four `,`; it splits as
`v , f1 , f2 , f3 , f4` with no `,` inside a part and with the part of an
empty list empty; and when the point-format list is not empty its last
character is a digit. -/
theorem ngx_ssl_ja3_fp_four_commas (pool : ngx_pool_t) (r : ngx_ssl_ja3_t) (out : ngx_str_t)
    (hwf : r.wf) (hnn : r.nonneg) (hp : (ngx_pnalloc pool).1 = true) :
    ∃ text : String,
      (ngx_ssl_ja3_fp (some pool) (some r) (some out)).bind (fun o => o.bind ngx_str_t.value)
        = some text ∧
      text.data.count ',' = 4 ∧
      (arr_list r.point_formats_sz r.point_formats ≠ [] →
        ∃ ch, text.data.getLast? = some ch ∧ ch.isDigit = true) ∧
      ∃ v f1 f2 f3 f4 : List Char,
        text.data = v ++ [','] ++ f1 ++ [','] ++ f2 ++ [','] ++ f3 ++ [','] ++ f4 ∧
        ',' ∉ v ∧ ',' ∉ f1 ∧ ',' ∉ f2 ∧ ',' ∉ f3 ∧ ',' ∉ f4 ∧
        (arr_list r.ciphers_sz r.ciphers = [] → f1 = []) ∧
        (arr_list r.extensions_sz r.extensions = [] → f2 = []) ∧
        (arr_list r.curves_sz r.curves = [] → f3 = []) ∧
        (arr_list r.point_formats_sz r.point_formats = [] → f4 = []) := by
  have hsplit := fp_text_split r hnn
  obtain ⟨_, h1, h2, h3, h4⟩ := hnn
  have c0 := toDigits_no_comma r.version.toNat
  have c1 := field_text_no_comma _ h1
  have c2 := field_text_no_comma _ h2
  have c3 := field_text_no_comma _ h3
  have c4 := field_text_no_comma _ h4
  refine ⟨String.mk (fp_text r), fp_value_eq pool r out hwf hp, ?_, ?_, ?_⟩
  · show (fp_text r).count ',' = 4
    rw [hsplit]
    simp only [List.count_append, List.count_eq_zero_of_not_mem c0,
      List.count_eq_zero_of_not_mem c1, List.count_eq_zero_of_not_mem c2,
      List.count_eq_zero_of_not_mem c3, List.count_eq_zero_of_not_mem c4]
    decide
  · intro hne
    obtain ⟨ch, hch, hd⟩ := (field_text_chars _ h4).2 hne
    refine ⟨ch, ?_, hd⟩
    show (fp_text r).getLast? = some ch
    have hfne : field_text (arr_list r.point_formats_sz r.point_formats) ≠ [] := by
      intro he; rw [he] at hch; simp at hch
    rw [hsplit, List.getLast?_append_of_ne_nil _ hfne, hch]
  · refine ⟨_, _, _, _, _, hsplit, c0, c1, c2, c3, c4, ?_, ?_, ?_, ?_⟩ <;>
      (intro he; rw [he]; rfl)

/-- Witness of C14: example 2 of the specification. -/
theorem ngx_ssl_ja3_fp_four_commas_witness :
    example_2.wf ∧ example_2.nonneg ∧
    ("772,4865-4866,0-23-65281,29,0-1-2".data.count ',' = 4) ∧
    ∃ text : String,
      (ngx_ssl_ja3_fp (some good_pool) (some example_2) (some blank_str)).bind
        (fun o => o.bind ngx_str_t.value) = some text ∧
      text.data.count ',' = 4 ∧
      (arr_list example_2.point_formats_sz example_2.point_formats ≠ [] →
        ∃ ch, text.data.getLast? = some ch ∧ ch.isDigit = true) ∧
      ∃ v f1 f2 f3 f4 : List Char,
        text.data = v ++ [','] ++ f1 ++ [','] ++ f2 ++ [','] ++ f3 ++ [','] ++ f4 ∧
        ',' ∉ v ∧ ',' ∉ f1 ∧ ',' ∉ f2 ∧ ',' ∉ f3 ∧ ',' ∉ f4 ∧
        (arr_list example_2.ciphers_sz example_2.ciphers = [] → f1 = []) ∧
        (arr_list example_2.extensions_sz example_2.extensions = [] → f2 = []) ∧
        (arr_list example_2.curves_sz example_2.curves = [] → f3 = []) ∧
        (arr_list example_2.point_formats_sz example_2.point_formats = [] → f4 = []) :=
  ⟨by decide, by decide, by decide,
    ngx_ssl_ja3_fp_four_commas good_pool example_2 blank_str (by decide) (by decide) rfl⟩

/-! ## Injectivity of the serialization -/

theorem dash_join_eq_intercalate (L : List (List Char)) :
    dash_join L = ['-'].intercalate L := by
  induction L with
  | nil => rfl
  | cons x r ih =>
    cases r with
    | nil => simp [dash_join, List.intercalate]
    | cons y r =>
      simp only [dash_join, ih]
      simp [List.intercalate]

theorem field_text_digits (l : List Int) (h : ∀ v ∈ l, 0 ≤ v) :
    field_text l = ['-'].intercalate (l.map (fun v => Nat.toDigits 10 v.toNat)) := by
  rw [field_text, dash_join_eq_intercalate]
  congr 1
  apply List.map_congr_left
  intro v hv
  exact elem_text_nonneg v (h v hv)

theorem map_toDigits_inj (l1 l2 : List Int) (h1 : ∀ v ∈ l1, 0 ≤ v) (h2 : ∀ v ∈ l2, 0 ≤ v)
    (h : l1.map (fun v => Nat.toDigits 10 v.toNat) = l2.map (fun v => Nat.toDigits 10 v.toNat)) :
    l1 = l2 := by
  have back : ∀ l : List Int, (∀ v ∈ l, 0 ≤ v) →
      (l.map (fun v => Nat.toDigits 10 v.toNat)).map (fun d => ((decimal_value d : Nat) : Int))
        = l := by
    intro l hl
    rw [List.map_map]
    conv_rhs => rw [← List.map_id l]
    apply List.map_congr_left
    intro v hv
    have := hl v hv
    simp only [Function.comp_apply, (toDigits_spec v.toNat).2.2, id_eq]
    omega
  rw [← back l1 h1, ← back l2 h2, h]

theorem field_text_inj (l1 l2 : List Int) (h1 : ∀ v ∈ l1, 0 ≤ v) (h2 : ∀ v ∈ l2, 0 ≤ v)
    (h : field_text l1 = field_text l2) : l1 = l2 := by
  have nonempty : ∀ l : List Int, (∀ v ∈ l, 0 ≤ v) → l ≠ [] → field_text l ≠ [] := by
    intro l hl hne he
    obtain ⟨ch, hch, _⟩ := (field_text_chars l hl).2 hne
    rw [he] at hch
    simp at hch
  by_cases e1 : l1 = []
  · by_cases e2 : l2 = []
    · rw [e1, e2]
    · exfalso
      apply nonempty l2 h2 e2
      rw [← h, e1]
      rfl
  · by_cases e2 : l2 = []
    · exfalso
      apply nonempty l1 h1 e1
      rw [h, e2]
      rfl
    · have nodash : ∀ l : List Int, ∀ d ∈ l.map (fun v => Nat.toDigits 10 v.toNat), '-' ∉ d := by
        intro l d hd hc
        obtain ⟨v, _, rfl⟩ := List.mem_map.mp hd
        exact absurd ((toDigits_spec v.toNat).1 '-' hc) (by decide)
      have s1 := List.splitOn_intercalate (l1.map (fun v => Nat.toDigits 10 v.toNat)) '-'
        (nodash l1) (by simpa using e1)
      have s2 := List.splitOn_intercalate (l2.map (fun v => Nat.toDigits 10 v.toNat)) '-'
        (nodash l2) (by simpa using e2)
      rw [← field_text_digits l1 h1] at s1
      rw [← field_text_digits l2 h2, ← h, s1] at s2
      exact map_toDigits_inj l1 l2 h1 h2 s2

theorem fp_text_intercalate (r : ngx_ssl_ja3_t) (h : r.nonneg) :
    fp_text r = [','].intercalate
      [Nat.toDigits 10 r.version.toNat, field_text (arr_list r.ciphers_sz r.ciphers),
        field_text (arr_list r.extensions_sz r.extensions),
        field_text (arr_list r.curves_sz r.curves),
        field_text (arr_list r.point_formats_sz r.point_formats)] := by
  rw [fp_text_split r h]
  simp [List.intercalate]

theorem fp_text_inj (r1 r2 : ngx_ssl_ja3_t) (h1 : r1.nonneg) (h2 : r2.nonneg)
    (h : fp_text r1 = fp_text r2) :
    r1.version = r2.version ∧
    arr_list r1.ciphers_sz r1.ciphers = arr_list r2.ciphers_sz r2.ciphers ∧
    arr_list r1.extensions_sz r1.extensions = arr_list r2.extensions_sz r2.extensions ∧
    arr_list r1.curves_sz r1.curves = arr_list r2.curves_sz r2.curves ∧
    arr_list r1.point_formats_sz r1.point_formats
      = arr_list r2.point_formats_sz r2.point_formats := by
  have pieces : ∀ r : ngx_ssl_ja3_t, r.nonneg →
      ∀ l ∈ [Nat.toDigits 10 r.version.toNat, field_text (arr_list r.ciphers_sz r.ciphers),
        field_text (arr_list r.extensions_sz r.extensions),
        field_text (arr_list r.curves_sz r.curves),
        field_text (arr_list r.point_formats_sz r.point_formats)], ',' ∉ l := by
    intro r hr l hl
    obtain ⟨_, a1, a2, a3, a4⟩ := hr
    simp only [List.mem_cons, List.mem_singleton, List.not_mem_nil, or_false] at hl
    rcases hl with rfl | rfl | rfl | rfl | rfl
    · exact toDigits_no_comma _
    · exact field_text_no_comma _ a1
    · exact field_text_no_comma _ a2
    · exact field_text_no_comma _ a3
    · exact field_text_no_comma _ a4
  have s1 := List.splitOn_intercalate _ ',' (pieces r1 h1) (by simp)
  have s2 := List.splitOn_intercalate _ ',' (pieces r2 h2) (by simp)
  rw [← fp_text_intercalate r1 h1] at s1
  rw [← fp_text_intercalate r2 h2, ← h, s1] at s2
  simp only [List.cons.injEq, and_true] at s2
  obtain ⟨e0, e1, e2, e3, e4⟩ := s2
  obtain ⟨v1, a1, a2, a3, a4⟩ := h1
  obtain ⟨v2, b1, b2, b3, b4⟩ := h2
  refine ⟨?_, field_text_inj _ _ a1 b1 e1, field_text_inj _ _ a2 b2 e2,
    field_text_inj _ _ a3 b3 e3, field_text_inj _ _ a4 b4 e4⟩
  have := congrArg decimal_value e0
  rw [(toDigits_spec _).2.2, (toDigits_spec _).2.2] at this
  omega

/-- C19: the serialization of `ngx_ssl_ja3_fp` is injective on records with
non-negative values: when two such records (arrays holding the announced
elements, the pool returning a block each time) give the same string, they
have the same version and the same four lists. -/
theorem ngx_ssl_ja3_fp_injective (pool1 pool2 : ngx_pool_t) (r1 r2 : ngx_ssl_ja3_t)
    (out1 out2 : ngx_str_t) (hwf1 : r1.wf) (hwf2 : r2.wf) (hnn1 : r1.nonneg) (hnn2 : r2.nonneg)
    (hp1 : (ngx_pnalloc pool1).1 = true) (hp2 : (ngx_pnalloc pool2).1 = true)
    (h : (ngx_ssl_ja3_fp (some pool1) (some r1) (some out1)).bind
          (fun o => o.bind ngx_str_t.value)
        = (ngx_ssl_ja3_fp (some pool2) (some r2) (some out2)).bind
          (fun o => o.bind ngx_str_t.value)) :
    (∃ text, (ngx_ssl_ja3_fp (some pool1) (some r1) (some out1)).bind
          (fun o => o.bind ngx_str_t.value) = some text) ∧
    r1.version = r2.version ∧
    arr_list r1.ciphers_sz r1.ciphers = arr_list r2.ciphers_sz r2.ciphers ∧
    arr_list r1.extensions_sz r1.extensions = arr_list r2.extensions_sz r2.extensions ∧
    arr_list r1.curves_sz r1.curves = arr_list r2.curves_sz r2.curves ∧
    arr_list r1.point_formats_sz r1.point_formats
      = arr_list r2.point_formats_sz r2.point_formats := by
  rw [fp_value_eq pool1 r1 out1 hwf1 hp1, fp_value_eq pool2 r2 out2 hwf2 hp2] at h
  refine ⟨⟨_, fp_value_eq pool1 r1 out1 hwf1 hp1⟩, ?_⟩
  have ht : fp_text r1 = fp_text r2 := by
    have := congrArg (Option.map String.data) h
    simpa using this
  exact fp_text_inj r1 r2 hnn1 hnn2 ht

/-- Witness of C19: two records with different array capacities and pointers
but the same version and lists give the same string; examples 1 and 2 give
different strings. -/
theorem ngx_ssl_ja3_fp_injective_witness :
    (ngx_ssl_ja3_fp (some good_pool)
        (some ⟨771, 1, some [4865, 0, 0], 0, none, 0, none, 0, none⟩) (some blank_str)).bind
      (fun o => o.bind ngx_str_t.value) = some "771,4865,,," ∧
    (ngx_ssl_ja3_fp (some good_pool) (some example_1) (some blank_str)).bind
        (fun o => o.bind ngx_str_t.value)
      ≠ (ngx_ssl_ja3_fp (some good_pool) (some example_2) (some blank_str)).bind
        (fun o => o.bind ngx_str_t.value) ∧
    arr_list 1 (some [4865, 0, 0]) = arr_list 1 (some [4865]) :=
  ⟨by decide, by decide,
    (ngx_ssl_ja3_fp_injective good_pool good_pool
      ⟨771, 1, some [4865, 0, 0], 0, none, 0, none, 0, none⟩ (record_of 771 [4865] [] [] [])
      blank_str blank_str (by decide) (by decide) (by decide) (by decide) rfl rfl
      (by decide)).2.2.1⟩

end NgxSslJa3
